import Mathlib

/-!
# Verification of the PHPUnit Test Workbench catalog and runner logic

Shallow embedding of the catalog synchronization engine (`TestFileLoader`),
the result decoding pipeline (`TestResult`) and the run dispatch/continuous
run logic (`TestRunner`) of the phpunit-test-workbench extension, together
with theorems settling the specification claims about them.

JavaScript strings are modelled as `List Char` where character-level
scanning matters (the TeamCity escape decoder), and as Lean `String`
elsewhere.  Mutable object state is modelled by explicit state passing.
-/

namespace JsStr

/-- JS whitespace as used by `String.prototype.trim` (the characters relevant
to this code base: space, tab, line feed, carriage return, vertical tab,
form feed, NBSP, BOM). -/
def isJsWhitespace (c : Char) : Bool :=
  c == ' ' || c == '\t' || c == '\n' || c == '\r' || c == '\u000b' || c == '\u000c' ||
  c == '\u00a0' || c == '\ufeff'

/-- JS `String.prototype.trim`: removes leading and trailing whitespace. -/
def jsTrim (s : List Char) : List Char :=
  ((s.dropWhile isJsWhitespace).reverse.dropWhile isJsWhitespace).reverse

/-- JS `String.prototype.startsWith` (kernel-computable form). -/
def jsStartsWith (s pre : String) : Bool :=
  pre.data.isPrefixOf s.data

/-- JS `String.prototype.endsWith` (kernel-computable form). -/
def jsEndsWith (s suf : String) : Bool :=
  suf.data.isSuffixOf s.data

/-- Drop the last `n` characters (kernel-computable form of `dropRight`). -/
def jsDropRight (s : String) (n : Nat) : String :=
  ⟨s.data.take (s.data.length - n)⟩

/-- Drop the first `n` characters (kernel-computable form of `drop`). -/
def jsDrop (s : String) (n : Nat) : String :=
  ⟨s.data.drop n⟩

/-- JS `String.prototype.includes` for a single character. -/
def jsContainsChar (s : String) (c : Char) : Bool :=
  s.data.any (fun d => d == c)

/-- Worker for global literal replacement.  `skip` counts characters that
belong to an already-matched occurrence and must be passed over without
re-scanning (a JS global regex continues after the end of each match). -/
def replaceAllGo (pat repl : List Char) : List Char → Nat → List Char
  | [], _ => []
  | _ :: rest, Nat.succ k => replaceAllGo pat repl rest k
  | c :: rest, 0 =>
    if pat.isPrefixOf (c :: rest) then
      repl ++ replaceAllGo pat repl rest (pat.length - 1)
    else
      c :: replaceAllGo pat repl rest 0

/-- JS `value.replace(/pat/g, repl)` for a literal pattern: left-to-right,
non-overlapping, the replacement text is not rescanned. -/
def replaceAll (pat repl s : List Char) : List Char :=
  replaceAllGo pat repl s 0

/-- JS `String.prototype.split(sep)` for the two-character separator
`"\r\n"`: always returns at least one (possibly empty) field. -/
def splitCRLF : List Char → List (List Char)
  | [] => [[]]
  | '\r' :: '\n' :: rest => [] :: splitCRLF rest
  | c :: rest =>
    match splitCRLF rest with
    | [] => [[c]]
    | l :: ls => (c :: l) :: ls

/-- The characters after the last `':'` of a line
(JS `line.split(':').pop()`; the whole line when there is no colon). -/
def afterLastColon (l : List Char) : List Char :=
  (l.reverse.takeWhile (fun c => c != ':')).reverse

/-- Scanner behind `colonIndex`. -/
def colonIndexGo : List Char → Nat → Int
  | [], _ => -1
  | c :: cs, i => if c == ':' then (i : Int) else colonIndexGo cs (i + 1)

/-- Index of the first `':'` in a line, `-1` when absent
(JS `line.indexOf(':')`). -/
def colonIndex (l : List Char) : Int :=
  colonIndexGo l 0

/-- A JS number as far as this code can observe it: an integer or `NaN`. -/
inductive JsNum where
  | num (n : Int)
  | nan
deriving DecidableEq, Repr

/-- Digits of a decimal string to a natural number. -/
def digitsToNat (l : List Char) : Nat :=
  l.foldl (fun acc c => acc * 10 + (c.toNat - '0'.toNat)) 0

/-- Modelled from the platform: JS `Number(s)` on the string shapes this code
feeds it — surrounding whitespace is ignored, the empty string is `0`, an
optionally `-`-signed run of decimal digits is that integer, and anything
else is treated as `NaN` (fractional, exponent and hex forms, which never
arise for PHPUnit line numbers, are not distinguished from `NaN`). -/
def jsNumber (l : List Char) : JsNum :=
  let t := ((l.dropWhile isJsWhitespace).reverse.dropWhile isJsWhitespace).reverse
  match t with
  | [] => .num 0
  | '-' :: rest =>
    if rest ≠ [] ∧ rest.all (fun c => c.isDigit) then .num (-(digitsToNat rest : Int))
    else .nan
  | _ =>
    if t.all (fun c => c.isDigit) then .num (digitsToNat t : Int)
    else .nan

end JsStr

namespace TestResultModel

open JsStr

/-- `TestResultStatus` from `src/runner/TestResult.ts`. -/
inductive TestResultStatus where
  | unknown
  | started
  | skipped
  | ignored
  | incomplete
  | passed
  | risky
  | warning
  | failed
  | error
deriving DecidableEq, Repr

/-- `TestResult.parseEscapedTeamcityString`: replace the escape tokens in
source order (`|'`, `|"`, `|[`, `|]`, `|r|n`, `|n`) and then `trim()`. -/
def parseEscapedTeamcityString (value : List Char) : List Char :=
  let v1 := replaceAll ['|', '\''] ['\''] value
  let v2 := replaceAll ['|', '"'] ['"'] v1
  let v3 := replaceAll ['|', '['] ['['] v2
  let v4 := replaceAll ['|', ']'] [']'] v3
  let v5 := replaceAll ['|', 'r', '|', 'n'] ['\r', '\n'] v4
  let v6 := replaceAll ['|', 'n'] ['\n'] v5
  jsTrim v6

/-- The observable fields of a `TestResult` object. -/
structure TestResult where
  status : TestResultStatus
  message : Option (List Char)
  messageDetail : Option (List Char)
  messageLineNum : Option JsNum
  failureType : Option (List Char)
  expectedValue : Option (List Char)
  actualValue : Option (List Char)
  dataSetIdentifier : Option (List Char)
  duration : Int
deriving DecidableEq, Repr

/-- The `TestResult` constructor: status `unknown`, duration `0`, every
message field still undefined. -/
def mkTestResult : TestResult :=
  { status := .unknown
    message := none
    messageDetail := none
    messageLineNum := none
    failureType := none
    expectedValue := none
    actualValue := none
    dataSetIdentifier := none
    duration := 0 }

/-- JS falsiness of an optional string argument (`!message || message.length <= 0`). -/
def strAbsent : Option (List Char) → Bool
  | none => true
  | some l => l.isEmpty

/-- `TestResult.setMessage`. -/
def setMessage (r : TestResult) (message : Option (List Char)) : TestResult :=
  if strAbsent message then r
  else
    { r with message := some (parseEscapedTeamcityString (message.getD [])) }

/-- `TestResult.setMessageDetail`: decode the detail, then interpret the last
CRLF-separated line as `<file>:<line>` when it has a colon past index 0. -/
def setMessageDetail (r : TestResult) (messageDetail : Option (List Char)) : TestResult :=
  if strAbsent messageDetail then r
  else
    let decoded := parseEscapedTeamcityString (messageDetail.getD [])
    let messageDetailLines := splitCRLF decoded
    let messageLine := messageDetailLines.getLastD []
    let r' :=
      if messageLine ≠ [] ∧ colonIndex messageLine > 0 then
        { r with messageLineNum := some (jsNumber (afterLastColon messageLine)) }
      else r
    { r' with messageDetail := some decoded }

/-- `TestResult.setFailureType`. -/
def setFailureType (r : TestResult) (failureType : Option (List Char)) : TestResult :=
  if strAbsent failureType then r else { r with failureType := failureType }

/-- `TestResult.setExpectedValue`. -/
def setExpectedValue (r : TestResult) (expectedValue : Option (List Char)) : TestResult :=
  if strAbsent expectedValue then r
  else { r with expectedValue := some (parseEscapedTeamcityString (expectedValue.getD [])) }

/-- `TestResult.setActualValue`. -/
def setActualValue (r : TestResult) (actualValue : Option (List Char)) : TestResult :=
  if strAbsent actualValue then r
  else { r with actualValue := some (parseEscapedTeamcityString (actualValue.getD [])) }

/-- `TestResult.setDataSetIdentifier`. -/
def setDataSetIdentifier (r : TestResult) (dataSetIdentifier : Option (List Char)) : TestResult :=
  if strAbsent dataSetIdentifier then r
  else { r with dataSetIdentifier := dataSetIdentifier }

/-- `TestResult.markStarted`. -/
def markStarted (r : TestResult) : TestResult := { r with status := .started }

/-- `TestResult.markPassed`. -/
def markPassed (r : TestResult) : TestResult := { r with status := .passed }

/-- `TestResult.markIgnored`. -/
def markIgnored (r : TestResult) (message messageDetail : Option (List Char)) : TestResult :=
  setMessageDetail (setMessage { r with status := .ignored } message) messageDetail

/-- `TestResult.markFailed`. -/
def markFailed (r : TestResult)
    (message messageDetail failureType expectedValue actualValue
      dataSetIdentifier : Option (List Char)) : TestResult :=
  setDataSetIdentifier
    (setActualValue
      (setExpectedValue
        (setFailureType
          (setMessageDetail (setMessage { r with status := .failed } message) messageDetail)
          failureType)
        expectedValue)
      actualValue)
    dataSetIdentifier

/-- `TestResult.markErrored`. -/
def markErrored (r : TestResult)
    (message messageDetail failureType expectedValue actualValue
      dataSetIdentifier : Option (List Char)) : TestResult :=
  setDataSetIdentifier
    (setActualValue
      (setExpectedValue
        (setFailureType
          (setMessageDetail (setMessage { r with status := .error } message) messageDetail)
          failureType)
        expectedValue)
      actualValue)
    dataSetIdentifier

/-- The escape tokens of the TeamCity payload convention
(spec §4.6: the encoder side of the protocol, external to this code). -/
inductive TcTok where
  | squote
  | dquote
  | lbrack
  | rbrack
  | lf
  | crlf
deriving DecidableEq, Repr

/-- The character(s) a token stands for. -/
def tokChars : TcTok → List Char
  | .squote => ['\'']
  | .dquote => ['"']
  | .lbrack => ['[']
  | .rbrack => [']']
  | .lf => ['\n']
  | .crlf => ['\r', '\n']

/-- The escaped (wire) form of a token. -/
def tokEnc : TcTok → List Char
  | .squote => ['|', '\'']
  | .dquote => ['|', '"']
  | .lbrack => ['|', '[']
  | .rbrack => ['|', ']']
  | .lf => ['|', 'n']
  | .crlf => ['|', 'r', '|', 'n']

/-- A string built only from the escapable characters, as a token list. -/
def decodedOf (ts : List TcTok) : List Char := (ts.map tokChars).flatten

/-- Its encoded (wire) form. -/
def encodedOf (ts : List TcTok) : List Char := (ts.map tokEnc).flatten

/-- Token forms after the `|'` replacement stage of the decoder. -/
def tokStageA : TcTok → List Char
  | .squote => ['\'']
  | t => tokEnc t

/-- Token forms after the `|"` stage. -/
def tokStageB : TcTok → List Char
  | .dquote => ['"']
  | t => tokStageA t

/-- Token forms after the `|[` stage. -/
def tokStageC : TcTok → List Char
  | .lbrack => ['[']
  | t => tokStageB t

/-- Token forms after the `|]` stage. -/
def tokStageD : TcTok → List Char
  | .rbrack => [']']
  | t => tokStageC t

/-- Token forms after the `|r|n` stage (only `|n` still encoded). -/
def tokStageE : TcTok → List Char
  | .crlf => ['\r', '\n']
  | t => tokStageD t

end TestResultModel

namespace LoaderModel

/-- `ItemType` from `TestItemDefinition.ts`. -/
inductive ItemType where
  | testsuite
  | namespc
  | cls
  | method
deriving DecidableEq, Repr

/-- Modelled from the spec (§4.1): `generateTestItemId` (its source is not in
the tree) produces deterministic IDs from kind, location and name — suite IDs
from config location plus suite name, namespace IDs from the cumulative
directory location, class IDs from the file location, method IDs from file
location plus method name.  A structured type captures exactly that. -/
inductive ItemId where
  | suite (configUri name : String)
  | ns (dirUri : String)
  | cls (fileUri : String)
  | method (fileUri name : String)
deriving DecidableEq, Repr

/-- The fields of a parsed `TestItemDefinition` that this logic reads. -/
structure TestItemDefinition where
  type : ItemType
  uri : String
  range : Option Nat := none
  namespaceName : Option String := none
  className : Option String := none
  classLabel : Option String := none
  methodName : Option String := none
  methodLabel : Option String := none
deriving DecidableEq, Repr

/-- JS truthiness of an optional string (`if (definition.getNamespaceName())`). -/
def truthy : Option String → Bool
  | none => false
  | some s => !s.isEmpty

/-- Modelled from the spec (§4.1): the class ID used by
`definition.getClassId()` is derived from the file location. -/
def TestItemDefinition.getClassId (d : TestItemDefinition) : ItemId :=
  ItemId.cls d.uri

/-- Modelled from the spec (§4.1): the method ID used by
`definition.getMethodId()` is derived from file location plus method name. -/
def TestItemDefinition.getMethodId (d : TestItemDefinition) : ItemId :=
  ItemId.method d.uri (d.methodName.getD "")

/-- One live `vscode.TestItem` object. -/
structure Item where
  id : ItemId
  uri : String
  label : String
  range : Option Nat
  canResolveChildren : Bool
  parent : Option ItemId
  children : List ItemId
deriving DecidableEq, Repr

/-- The observable catalog state: the arena of live `TestItem` objects, the
test controller's root collection (`ctrl.items`) and the `TestItemMap`
(`id → definition`; `set`/`delete` always update item and definition entries
together, so one association list captures both). -/
structure Catalog where
  arena : List Item
  roots : List ItemId
  itemMap : List (ItemId × TestItemDefinition)
deriving DecidableEq, Repr

def emptyCatalog : Catalog := ⟨[], [], []⟩

/-- Look an object up in the arena. -/
def findItem (s : Catalog) (id : ItemId) : Option Item :=
  s.arena.find? (fun it => it.id == id)

/-- `TestItemMap.getTestItem`: the stored object, when the ID is mapped. -/
def getTestItem (s : Catalog) (id : ItemId) : Option Item :=
  if (s.itemMap.find? (fun p => p.1 == id)).isSome then findItem s id else none

/-- `TestItemMap.getTestDefinition`. -/
def getTestDefinition (s : Catalog) (id : ItemId) : Option TestItemDefinition :=
  (s.itemMap.find? (fun p => p.1 == id)).map (·.2)

/-- JS `Map.set`: update in place when the key exists, else append. -/
def mapSet (m : List (ItemId × TestItemDefinition)) (id : ItemId)
    (d : TestItemDefinition) : List (ItemId × TestItemDefinition) :=
  if m.any (fun p => p.1 == id) then m.map (fun p => if p.1 == id then (id, d) else p)
  else m ++ [(id, d)]

/-- JS `Map.delete`. -/
def mapDelete (m : List (ItemId × TestItemDefinition)) (id : ItemId) :
    List (ItemId × TestItemDefinition) :=
  m.filter (fun p => p.1 != id)

/-- Mutate the object with the given ID in place. -/
def updateItem (s : Catalog) (id : ItemId) (f : Item → Item) : Catalog :=
  { s with arena := s.arena.map (fun it => if it.id == id then f it else it) }

/-- Drop a dead object from the arena. -/
def arenaDelete (s : Catalog) (id : ItemId) : Catalog :=
  { s with arena := s.arena.filter (fun it => it.id != id) }

/-- `vscode.TestItemCollection.add`: replace the entry with the same ID, else
append (and the added item's parent becomes the collection's owner). -/
def childAdd (children : List ItemId) (id : ItemId) : List ItemId :=
  if children.any (fun c => c == id) then children else children ++ [id]

/-- `TestFileLoader.setLabelIcon`. -/
def setLabelIcon (itemType : ItemType) (label : String) : String :=
  match itemType with
  | .namespc => "$(symbol-namespace) " ++ label
  | .cls => "$(symbol-class) " ++ label
  | .method => "$(symbol-method) " ++ label
  | .testsuite => label

/-- `TestFileLoader.addTestItem`: create the `TestItem`, register it with the
`TestItemMap`, and attach it as a child of the parent or directly to the
test controller. -/
def addTestItem (s : Catalog) (id : ItemId) (label : String)
    (definition : TestItemDefinition) (uri : String)
    (parent : Option ItemId) : Catalog :=
  let item : Item :=
    { id := id
      uri := uri
      label := setLabelIcon definition.type label
      range := none
      canResolveChildren := false
      parent := parent
      children := [] }
  let s := { s with arena := s.arena ++ [item], itemMap := mapSet s.itemMap id definition }
  match parent with
  | some pid => updateItem s pid (fun p => { p with children := childAdd p.children id })
  | none => { s with roots := childAdd s.roots id }

/-- `TestFileLoader.removeTestItem`: drop the `TestItemMap` entry, detach the
item from its parent (or the controller), and cascade upwards when the
parent is left childless.  The recursion climbs the parent chain, so it is
bounded by the arena size; `fuel` makes it structurally total.  A removed
object's host-managed `parent` reference is cleared by the collection, so a
second removal of the same ID only re-runs the (no-op) root deletion. -/
def removeTestItem : Nat → Catalog → ItemId → Catalog
  | 0, s, _ => s
  | Nat.succ fuel, s, id =>
    let s1 := { s with itemMap := mapDelete s.itemMap id }
    match findItem s1 id with
    | none => { s1 with roots := s1.roots.erase id }
    | some item =>
      match item.parent with
      | none =>
        let s2 := arenaDelete s1 id
        { s2 with roots := s2.roots.erase id }
      | some pid =>
        let s2 := arenaDelete s1 id
        match findItem s2 pid with
        | none => s2
        | some p =>
          let ch := p.children.erase id
          let s3 := updateItem s2 pid (fun q => { q with children := ch })
          if ch.isEmpty then removeTestItem fuel s3 pid else s3

/-- `removeTestItem` with enough fuel for any well-formed parent chain. -/
def removeTestItemFull (s : Catalog) (id : ItemId) : Catalog :=
  removeTestItem (s.arena.length + 1) s id

/-- A `TestSuite` as this logic reads it; the glob matching of its include
patterns against a document (`vscode.languages.match` over
`getGlobsForTestSuiteItems`) is an external collaborator, abstracted as a
predicate on the document's location. -/
structure TestSuite where
  name : String
  configFileUri : String
  includeMatches : String → Bool

/-- An `AutoloaderDefinition` entry of the namespace map:
`getNamespace()` and `getDirectoryUri().path`. -/
structure NamespaceMapping where
  namespaceName : String
  directoryPath : String
deriving DecidableEq, Repr

/-- Settings read by the loader. -/
structure SettingsModel where
  useTestSuiteDefinitions : Bool
  organizedByNamespace : Bool
deriving DecidableEq, Repr

/-- The loader's external collaborators: the suite map for the workspace, the
namespace map, and the file system (`vscode.workspace.fs.stat` succeeding). -/
structure LoaderEnv where
  suites : List TestSuite
  nsMappings : List NamespaceMapping
  dirExists : String → Bool

/-- The suite search of `TestFileLoader.findSuiteTestItemForTestDocument`:
the first suite whose include patterns match the document. -/
def findSuiteForFile (suites : List TestSuite) (fileUri : String) : Option TestSuite :=
  suites.find? (fun ts => ts.includeMatches fileUri)

/-- `TestFileLoader.getSuiteTestItem`: reuse the suite root when it already
exists, else create and register it. -/
def getSuiteTestItem (s : Catalog) (suite : TestSuite) : Catalog × ItemId :=
  let id := ItemId.suite suite.configFileUri suite.name
  let label := "SUITE: " ++ suite.name
  match getTestItem s id with
  | some _ => (s, id)
  | none =>
    let definition : TestItemDefinition :=
      { type := .testsuite, uri := suite.configFileUri }
    let s := addTestItem s id label definition suite.configFileUri none
    let s := updateItem s id (fun it => { it with canResolveChildren := true })
    (s, id)

/-- The namespace-prefix search loop of `TestFileLoader.getNamespaceTestItem`:
walk the workspace namespace map in order and stop at the first mapping whose
namespace is a string-prefix of the class namespace and whose directory path
is a prefix of the class file's path; strip a trailing `\` from the selected
namespace and a trailing `/` from the selected directory.  An empty first
component means no mapping matched. -/
def resolveNamespacePfx : List NamespaceMapping → String → String → String × String
  | [], _, _ => ("", "")
  | m :: rest, classNamespace, classPath =>
    if !(JsStr.jsStartsWith classNamespace m.namespaceName) then
      resolveNamespacePfx rest classNamespace classPath
    else if !(JsStr.jsStartsWith classPath m.directoryPath) then
      resolveNamespacePfx rest classNamespace classPath
    else
      ((if JsStr.jsEndsWith m.namespaceName "\\" then JsStr.jsDropRight m.namespaceName 1
        else m.namespaceName),
       (if JsStr.jsEndsWith m.directoryPath "/" then JsStr.jsDropRight m.directoryPath 1
        else m.directoryPath))

/-- JS `String.replace` with a *string* pattern: first occurrence only. -/
def replaceFirstGo (pat repl : List Char) : List Char → List Char
  | [] => []
  | c :: rest =>
    if pat.isPrefixOf (c :: rest) then repl ++ rest.drop (pat.length - 1)
    else c :: replaceFirstGo pat repl rest

/-- JS `s.replace(pat, repl)` for a literal string pattern. -/
def jsReplaceFirst (s pat repl : String) : String :=
  ⟨replaceFirstGo pat.data repl.data s.data⟩

/-- One step of the namespace-part traversal of `getNamespaceTestItem`:
extend the cumulative path and name, then find or create the namespace
`TestItem` for it. -/
def namespacePartStep (nsPfxPath nsPfx : String)
    (acc : Catalog × String × String × Option ItemId) (namespacePart : String) :
    Catalog × String × String × Option ItemId :=
  let (s, namespacePath, namespaceName, parent) := acc
  let (namespacePath, namespaceName) :=
    if namespacePath.length = 0 then (nsPfxPath, nsPfx)
    else (namespacePath ++ "/" ++ namespacePart, namespaceName ++ "\\" ++ namespacePart)
  let id := ItemId.ns namespacePath
  match getTestItem s id with
  | some _ => (s, namespacePath, namespaceName, some id)
  | none =>
    let definition : TestItemDefinition :=
      { type := .namespc, uri := namespacePath, namespaceName := some namespaceName }
    let s := addTestItem s id namespacePart definition namespacePath parent
    let s := updateItem s id (fun it => { it with canResolveChildren := true })
    (s, namespacePath, namespaceName, some id)

/-- `TestFileLoader.getNamespaceTestItem`: resolve the namespace prefix, bail
out to the given parent on any failure (no prefix, missing directory), else
find-or-create one namespace node per cumulative path component. -/
def getNamespaceTestItem (st : SettingsModel) (env : LoaderEnv) (s : Catalog)
    (classDefinition : TestItemDefinition) (parent : Option ItemId) :
    Catalog × Option ItemId :=
  if !st.organizedByNamespace then (s, parent)
  else if !(truthy classDefinition.namespaceName) then (s, parent)
  else
    let classNamespace := classDefinition.namespaceName.getD ""
    let (nsPfx, nsPfxPath) :=
      resolveNamespacePfx env.nsMappings classNamespace classDefinition.uri
    if nsPfx.length = 0 then (s, parent)
    else
      let normalised := jsReplaceFirst classNamespace (nsPfx ++ "\\") ""
      let namespaceParts := nsPfx :: normalised.splitOn "\\"
      let targetNamespaceUri :=
        nsPfxPath ++ "/" ++ String.intercalate "/" (normalised.splitOn "\\")
      if !(env.dirExists targetNamespaceUri) then (s, parent)
      else
        let (s, _, _, parent) :=
          namespaceParts.foldl (namespacePartStep nsPfxPath nsPfx) (s, "", "", parent)
        (s, parent)

/-- `TestFileLoader.getClassTestItem`: find-or-create the class node, moving
(replace) it when its resolved parent or namespace changed. -/
def getClassTestItem (st : SettingsModel) (s : Catalog)
    (definition : TestItemDefinition) (parent : Option ItemId) : Catalog × ItemId :=
  let id := definition.getClassId
  let name := definition.className.getD ""
  let label0 := definition.classLabel.getD ""
  let label1 :=
    if !st.organizedByNamespace && truthy definition.namespaceName && name == label0 then
      definition.namespaceName.getD "" ++ "\\" ++ name
    else label0
  let label :=
    if st.organizedByNamespace && truthy definition.namespaceName && parent.isNone then
      definition.namespaceName.getD "" ++ "\\" ++ name
    else label1
  match getTestItem s id with
  | some item =>
    let existingDefinition := getTestDefinition s id
    let replaceTestItem :=
      (match parent, item.parent with
       | some p, some ip => p != ip
       | _, _ => false)
      ||
      (match existingDefinition with
       | some ed => ed.namespaceName != definition.namespaceName
       | none => false)
    if !replaceTestItem then
      let s := updateItem s id (fun it =>
        { it with label := setLabelIcon definition.type label, range := definition.range })
      let s := { s with itemMap := mapSet s.itemMap id definition }
      (s, id)
    else
      let s := item.children.foldl (fun s cid => removeTestItemFull s cid) s
      let s := removeTestItemFull s id
      let s := addTestItem s id label definition definition.uri parent
      let s := updateItem s id (fun it =>
        { it with range := definition.range, canResolveChildren := true })
      (s, id)
  | none =>
    let s := addTestItem s id label definition definition.uri parent
    let s := updateItem s id (fun it =>
      { it with range := definition.range, canResolveChildren := true })
    (s, id)

/-- Host `children.add` on an item attached elsewhere, as the reconciler
relies on it (spec §4.4 step 3): detach from the previous parent (or the
controller roots) and reattach under the new parent. -/
def moveItem (s : Catalog) (id : ItemId) (newParent : ItemId) : Catalog :=
  let s :=
    match findItem s id with
    | some it =>
      match it.parent with
      | some oldP => updateItem s oldP (fun p => { p with children := p.children.erase id })
      | none => { s with roots := s.roots.erase id }
    | none => s
  let s := updateItem s id (fun it => { it with parent := some newParent })
  updateItem s newParent (fun p => { p with children := childAdd p.children id })

/-- `TestFileLoader.getMethodTestItem`: find-or-create the method node,
re-parenting an existing node whose class changed. -/
def getMethodTestItem (s : Catalog) (definition : TestItemDefinition)
    (parent : Option ItemId) : Catalog × ItemId :=
  let id := definition.getMethodId
  let label := definition.methodLabel.getD ""
  match getTestItem s id with
  | some item =>
    let s := updateItem s id (fun it =>
      { it with label := setLabelIcon definition.type label, range := definition.range })
    let s :=
      match parent with
      | some p => if item.parent != some p then moveItem s id p else s
      | none => s
    let s := { s with itemMap := mapSet s.itemMap id definition }
    (s, id)
  | none =>
    let s := addTestItem s id label definition definition.uri parent
    let s := updateItem s id (fun it =>
      { it with range := definition.range, canResolveChildren := false })
    (s, id)

/-- Modelled from the spec (§4.4 step 1): `TestItemMap.getTestItemIdsForFile`
(absent from the sources, which only hold an older `TestItemMap` variant)
captures the IDs of all catalog entries originating from the file's
location, in map order. -/
def getTestItemIdsForFile (s : Catalog) (fileUri : String) : List ItemId :=
  s.itemMap.filterMap (fun p => if p.2.uri == fileUri then some p.1 else none)

/-- One iteration of the definition loop of `TestFileLoader.parseTestDocument`
(lines 704–723): place a class under its namespace/suite parent, or a method
under the current class, and tick the visited ID off the existing-IDs list. -/
def processDefinition (st : SettingsModel) (env : LoaderEnv)
    (testSuiteTestItem : Option ItemId)
    (acc : Catalog × Option ItemId × List ItemId)
    (definition : TestItemDefinition) : Catalog × Option ItemId × List ItemId :=
  let (s, parentTestItem, existingTestItems) := acc
  match definition.type with
  | .cls =>
    let (s, p1) :=
      if truthy definition.namespaceName then
        getNamespaceTestItem st env s definition testSuiteTestItem
      else (s, testSuiteTestItem)
    let (s, cid) := getClassTestItem st s definition p1
    (s, some cid, existingTestItems.erase cid)
  | .method =>
    let (s, mid) := getMethodTestItem s definition parentTestItem
    (s, parentTestItem, existingTestItems.erase mid)
  | _ => (s, parentTestItem, existingTestItems)

/-- `TestFileLoader.parseTestDocument` (first variant, lines 657–732):
capture the existing IDs for the file, resolve the suite parent (returning
unchanged when suite organization is on and no suite matches), process every
definition in file order, then prune the orphaned IDs. -/
def parseTestDocument (st : SettingsModel) (env : LoaderEnv) (s : Catalog)
    (fileUri : String) (testDefinitions : List TestItemDefinition)
    (testSuite : Option (TestSuite ⊕ ItemId) := none) : Catalog :=
  let existingTestItems := getTestItemIdsForFile s fileUri
  let suiteStep : Option (Catalog × Option ItemId) :=
    if st.useTestSuiteDefinitions then
      match testSuite with
      | some (Sum.inl ts) =>
        let (s', sid) := getSuiteTestItem s ts
        some (s', some sid)
      | some (Sum.inr itemId) => some (s, some itemId)
      | none =>
        match findSuiteForFile env.suites fileUri with
        | some ts =>
          let (s', sid) := getSuiteTestItem s ts
          some (s', some sid)
        | none => none
    else some (s, none)
  match suiteStep with
  | none => s
  | some (s1, testSuiteTestItem) =>
    let (s2, _, orphans) :=
      testDefinitions.foldl (processDefinition st env testSuiteTestItem)
        (s1, none, existingTestItems)
    orphans.foldl
      (fun s id =>
        match getTestItem s id with
        | some _ => removeTestItemFull s id
        | none => s)
      s2

end LoaderModel

namespace RunnerModel

/-- A JS exception as far as this logic can raise one. -/
inductive JsError where
  | typeError
  | syntaxError
deriving DecidableEq, Repr

/-- The record stored by `TestRunner.run` as `mostRecentTestRunRequest`
(the request object itself is opaque to the re-run logic). -/
structure PriorRun where
  requestId : Nat
  debug : Bool
  coverage : Bool
deriving DecidableEq, Repr

/-- The message logged by the re-run guard. -/
def rerunGuardMessage : String :=
  "Unable to re-run test, as no test runs have been completed successfully yet."

/-- `TestRunner.rerunMostRecentRunRequest`: when no run has completed, the
guard logs its message but does not return; the following non-null assertion
yields `undefined` and reading `.request` from it throws a `TypeError`
(modelled as `Except.error`).  Otherwise the stored request is re-dispatched. -/
def rerunMostRecentRunRequest (mostRecentTestRunRequest : Option PriorRun) :
    List String × Except JsError PriorRun :=
  let logs := if mostRecentTestRunRequest.isNone then [rerunGuardMessage] else []
  match mostRecentTestRunRequest with
  | none => (logs, .error .typeError)
  | some previousRequest => (logs, .ok previousRequest)

/-- One `vscode.TestItem` as the run-queue builder sees it. -/
inductive VsTestItem where
  | mk (id : String) (canResolveChildren : Bool) (tags : List String)
      (children : List VsTestItem)

def VsTestItem.id : VsTestItem → String
  | .mk i _ _ _ => i

def VsTestItem.canResolveChildren : VsTestItem → Bool
  | .mk _ c _ _ => c

def VsTestItem.tags : VsTestItem → List String
  | .mk _ _ t _ => t

def VsTestItem.children : VsTestItem → List VsTestItem
  | .mk _ _ _ ch => ch

/-- JS `Map.set` for the run queue: update in place, else append. -/
def qSet (queue : List (String × VsTestItem)) (id : String) (item : VsTestItem) :
    List (String × VsTestItem) :=
  if queue.any (fun p => p.1 == id) then
    queue.map (fun p => if p.1 == id then (id, item) else p)
  else queue ++ [(id, item)]

mutual

/-- `TestRunner.buildTestRunQueue`: mark leaf items (those that cannot
resolve children) as enqueued when they pass the tag filter, add every
visited item to the queue map, and recurse into the children. -/
def buildTestRunQueue (queue : List (String × VsTestItem)) (enqueued : List String)
    (item : VsTestItem) (tagId : Option String) :
    List (String × VsTestItem) × List String :=
  match item with
  | .mk i canRes tags children =>
    let enqueued :=
      if !canRes then
        match tagId with
        | none => enqueued ++ [i]
        | some t => if tags.any (fun tg => tg == t) then enqueued ++ [i] else enqueued
      else enqueued
    let queue := qSet queue i (.mk i canRes tags children)
    buildTestRunQueueList queue enqueued children tagId

/-- The `item.children.forEach` recursion of `buildTestRunQueue`. -/
def buildTestRunQueueList (queue : List (String × VsTestItem)) (enqueued : List String)
    (items : List VsTestItem) (tagId : Option String) :
    List (String × VsTestItem) × List String :=
  match items with
  | [] => (queue, enqueued)
  | it :: rest =>
    let (q, e) := buildTestRunQueue queue enqueued it tagId
    buildTestRunQueueList q e rest tagId

end

mutual

/-- The IDs of a subtree in visit (preorder) order. -/
def subtreeIds : VsTestItem → List String
  | .mk i _ _ children => i :: subtreeIdsList children

def subtreeIdsList : List VsTestItem → List String
  | [] => []
  | it :: rest => subtreeIds it ++ subtreeIdsList rest

end

mutual

/-- The nodes of a subtree in visit (preorder) order. -/
def subtreeItems : VsTestItem → List VsTestItem
  | .mk i c t children => .mk i c t children :: subtreeItemsList children

def subtreeItemsList : List VsTestItem → List VsTestItem
  | [] => []
  | it :: rest => subtreeItems it ++ subtreeItemsList rest

end

/-- Whether a leaf passes the tag filter. -/
def passesTagFilter (tags : List String) (tagId : Option String) : Bool :=
  match tagId with
  | none => true
  | some t => tags.any (fun tg => tg == t)

mutual

/-- The leaves of a subtree that pass the tag filter, in visit order. -/
def filteredLeafIds (tagId : Option String) : VsTestItem → List String
  | .mk i canRes tags children =>
    (if !canRes && passesTagFilter tags tagId then [i] else [])
      ++ filteredLeafIdsList tagId children

def filteredLeafIdsList (tagId : Option String) : List VsTestItem → List String
  | [] => []
  | it :: rest => filteredLeafIds tagId it ++ filteredLeafIdsList tagId rest

end

/-- An active continuous-run subscription (`ContinuousTestRunDefinition`),
identified abstractly. -/
structure ContinuousRunDef where
  subId : Nat
deriving DecidableEq, Repr

/-- A `vscode.RelativePattern` as this logic reads it. -/
structure RelPattern where
  pattern : String
deriving DecidableEq, Repr

/-- The runner's external collaborators: the `continuous.pathMappings`
setting (pairs of regex sources) and the platform's regex matcher. -/
structure RunnerEnv where
  pathMappings : List (String × String)
  regexTest : String → String → Bool

/-- Scanner behind the modelled `new RegExp` validity check: tracks group
depth, character-class state and trailing escapes. -/
def jsRegexScanOk : List Char → Nat → Bool → Bool
  | [], depth, inClass => depth == 0 && !inClass
  | '\\' :: [], _, _ => false
  | '\\' :: _ :: rest, depth, inClass => jsRegexScanOk rest depth inClass
  | '[' :: rest, depth, false => jsRegexScanOk rest depth true
  | ']' :: rest, depth, true => jsRegexScanOk rest depth false
  | '(' :: rest, depth, false => jsRegexScanOk rest (depth + 1) false
  | ')' :: _, 0, false => false
  | ')' :: rest, Nat.succ depth, false => jsRegexScanOk rest depth false
  | _ :: rest, depth, inClass => jsRegexScanOk rest depth inClass

/-- Modelled from the platform: `new RegExp(p)` throws a `SyntaxError` for
syntactically invalid patterns.  Validity is modelled by a bracket/escape
scanner — an under-approximation of the platform's full grammar, but every
pattern it rejects (an unterminated group or class, a dangling escape) is
rejected by the platform too. -/
def jsRegexSyntaxOk (p : String) : Bool :=
  jsRegexScanOk p.data 0 false

/-- `new RegExp(p)`: a match predicate, or a thrown `SyntaxError`. -/
def jsRegexCompile (env : RunnerEnv) (p : String) : Except JsError (String → Bool) :=
  if jsRegexSyntaxOk p then .ok (env.regexTest p) else .error .syntaxError

/-- A `\w` character. -/
def isWordChar (c : Char) : Bool := c.isAlphanum || c == '_'

/-- An anchored attempt of `/::(test\w+)$/` at the start of the list. -/
def tryTestMethodHere (l : List Char) : Option (List Char) :=
  match l with
  | ':' :: ':' :: 't' :: 'e' :: 's' :: 't' :: rest =>
    if rest ≠ [] ∧ rest.all isWordChar then some ('t' :: 'e' :: 's' :: 't' :: rest)
    else none
  | _ => none

/-- `testFile.match(/::(test\w+)$/)`: the captured group at the first
position where the end-anchored pattern matches. -/
def matchTestMethodGo : List Char → Option (List Char)
  | [] => none
  | c :: rest =>
    match tryTestMethodHere (c :: rest) with
    | some g => some g
    | none => matchTestMethodGo rest

/-- The captured method name of `/::(test\w+)$/`, when any. -/
def testMethodSuffix (testFile : String) : Option String :=
  (matchTestMethodGo testFile.data).map (fun l => ⟨l⟩)

/-- `^pre(.+)suf$`: the nonempty middle when the circumfix matches. -/
def stripCircum (pre suf s : String) : Option String :=
  if JsStr.jsStartsWith s pre && JsStr.jsEndsWith s suf
      && decide (pre.data.length + suf.data.length < s.data.length) then
    some (JsStr.jsDropRight (JsStr.jsDrop s pre.data.length) suf.data.length)
  else none

/-- Greedy split of `(.+)/(.+)`: the longest first group leaving the second
nonempty. -/
def lastViableSlashGo : List Char → List Char → Option (List Char × List Char)
  | _, [] => none
  | seenRev, '/' :: restRev =>
    if seenRev ≠ [] ∧ restRev ≠ [] then some (restRev.reverse, seenRev.reverse)
    else lastViableSlashGo (seenRev ++ ['/']) restRev
  | seenRev, c :: restRev => lastViableSlashGo (seenRev ++ [c]) restRev

/-- Greedy decomposition `A/B` of a list with `A`, `B` nonempty and `A`
longest, as the regex `(.+)\/(.+)` produces. -/
def lastViableSlash (l : List Char) : Option (List Char × List Char) :=
  lastViableSlashGo [] l.reverse

/-- `TestRunner.convertTestPathToSourcePath`: the PSR-4 test-to-source path
patterns, applied in order, first match wins, identity otherwise. -/
def convertTestPathToSourcePath (testPath : String) : String :=
  match stripCircum "tests/" "Test.php" testPath with
  | some mid => "src/" ++ mid ++ ".php"
  | none =>
  match stripCircum "test/" "Test.php" testPath with
  | some mid => "src/" ++ mid ++ ".php"
  | none =>
  match (stripCircum "tests/" "Test.php" testPath).bind (fun mid => lastViableSlash mid.data) with
  | some (a, b) => "src/" ++ String.mk a ++ "/" ++ String.mk b ++ ".php"
  | none =>
  match stripCircum "tests/App/" "Test.php" testPath with
  | some mid => "app/" ++ mid ++ ".php"
  | none =>
  match stripCircum "tests/Test/" "Test.php" testPath with
  | some mid => "app/" ++ mid ++ ".php"
  | none => testPath

/-- `TestRunner.runAllContinuousTests`: every active subscription re-runs. -/
def runAllContinuousTests (activeContinuousRuns : List (RelPattern × ContinuousRunDef)) :
    List ContinuousRunDef :=
  activeContinuousRuns.map (·.2)

/-- The `continuous.pathMappings` loop: compile both regexes of each pair
(which can throw) and test the changed file against them. -/
def checkMappings (env : RunnerEnv) (relativePath : String) :
    List (String × String) → Except JsError Bool
  | [] => .ok false
  | (srcPat, tstPat) :: rest =>
    match jsRegexCompile env srcPat with
    | .error e => .error e
    | .ok sourceTest =>
      match jsRegexCompile env tstPat with
      | .error e => .error e
      | .ok tstTest =>
        if sourceTest relativePath || tstTest relativePath then .ok true
        else checkMappings env relativePath rest

/-- The subscription loop of `TestRunner.checkForActiveContinuousRun`:
a wildcard pattern immediately re-runs just its own subscription; an exact
file pattern that matches the changed file directly, through the PSR-4 path
inference, or through a configured regex pair re-runs *all* active
subscriptions; otherwise the next subscription is examined.  The returned
list is the set of re-triggered subscriptions. -/
def checkForActiveContinuousRunGo (env : RunnerEnv)
    (allSubs : List (RelPattern × ContinuousRunDef)) (relativePath : String) :
    List (RelPattern × ContinuousRunDef) → Except JsError (List ContinuousRunDef)
  | [] => .ok []
  | (testPattern, continuousRun) :: rest =>
    let testFile := testPattern.pattern
    let isGlobPattern := JsStr.jsContainsChar testFile '*' || JsStr.jsContainsChar testFile '\x7b'
    if isGlobPattern then .ok [continuousRun]
    else
      let methodName := testMethodSuffix testFile
      let testFilePath :=
        if methodName.isSome then
          LoaderModel.jsReplaceFirst testFile "::\x7bmethodName\x7d" ""
        else testFile
      if testFilePath == relativePath then .ok (runAllContinuousTests allSubs)
      else
        let sourceFile := convertTestPathToSourcePath testFilePath
        if sourceFile == relativePath then .ok (runAllContinuousTests allSubs)
        else
          match checkMappings env relativePath env.pathMappings with
          | .error e => .error e
          | .ok true => .ok (runAllContinuousTests allSubs)
          | .ok false => checkForActiveContinuousRunGo env allSubs relativePath rest

/-- `TestRunner.checkForActiveContinuousRun` on the active subscription map. -/
def checkForActiveContinuousRun (env : RunnerEnv)
    (activeContinuousRuns : List (RelPattern × ContinuousRunDef))
    (relativePath : String) : Except JsError (List ContinuousRunDef) :=
  checkForActiveContinuousRunGo env activeContinuousRuns relativePath activeContinuousRuns

/-- A subscription whose exact-file pattern positively matches the changed
file by one of the three routes (path equality, test-to-source inference, or
a configured regex pair). -/
def exactPatternMatches (env : RunnerEnv) (testFile relativePath : String) : Bool :=
  let methodName := testMethodSuffix testFile
  let testFilePath :=
    if methodName.isSome then
      LoaderModel.jsReplaceFirst testFile "::\x7bmethodName\x7d" ""
    else testFile
  testFilePath == relativePath
    || convertTestPathToSourcePath testFilePath == relativePath
    || (match checkMappings env relativePath env.pathMappings with
        | .ok true => true
        | _ => false)

end RunnerModel

namespace LoaderScenario

open LoaderModel

/-- File-based organization (no suites, no namespace tree). -/
def flatSettings : SettingsModel := ⟨false, false⟩

/-- Suite-based organization. -/
def suiteSettings : SettingsModel := ⟨true, false⟩

/-- An environment with no suites, no namespace mappings and no directories. -/
def emptyEnv : LoaderEnv := ⟨[], [], fun _ => false⟩

/-- The parsed class definition of file `f`. -/
def classDefn (f c : String) (ns : Option String := none) (r : Option Nat := none) :
    TestItemDefinition :=
  { type := .cls, uri := f, range := r, namespaceName := ns,
    className := some c, classLabel := some c }

/-- A parsed method definition of file `f`. -/
def methodDefn (f m : String) (r : Option Nat := none) : TestItemDefinition :=
  { type := .method, uri := f, range := r, methodName := some m, methodLabel := some m }

/-- The definition list of a single-class file: the class followed by its
methods, in file order. -/
def fileDefns (f c : String) (ns : Option String) (rc rm : Option Nat)
    (ms : List String) : List TestItemDefinition :=
  classDefn f c ns rc :: ms.map (fun m => methodDefn f m rm)

/-- The class item that flat reconciliation of `fileDefns` produces. -/
def classItemOf (f c : String) (ns : Option String) (rc : Option Nat)
    (ms : List String) : Item :=
  { id := ItemId.cls f
    uri := f
    label := setLabelIcon .cls
      (if truthy ns && (c == c) then ns.getD "" ++ "\\" ++ c else c)
    range := rc
    canResolveChildren := true
    parent := none
    children := ms.map (fun m => ItemId.method f m) }

/-- The method item that flat reconciliation produces. -/
def methodItemOf (f m : String) (rm : Option Nat) : Item :=
  { id := ItemId.method f m
    uri := f
    label := setLabelIcon .method m
    range := rm
    canResolveChildren := false
    parent := some (ItemId.cls f)
    children := [] }

/-- The catalog that flat reconciliation of `fileDefns` from an empty catalog
produces: the class at the controller root with its methods as children. -/
def flatCatalog (f c : String) (ns : Option String) (rc rm : Option Nat)
    (ms : List String) : Catalog :=
  { arena := classItemOf f c ns rc ms :: ms.map (fun m => methodItemOf f m rm)
    roots := [ItemId.cls f]
    itemMap := (ItemId.cls f, classDefn f c ns rc)
      :: ms.map (fun m => (ItemId.method f m, methodDefn f m rm)) }

end LoaderScenario

section Scratch

open JsStr TestResultModel

example : parseEscapedTeamcityString "x|ny".toList = "x\ny".toList := by decide
example : parseEscapedTeamcityString "|n".toList = [] := by decide
example : parseEscapedTeamcityString "|r|n".toList = [] := by decide
example : parseEscapedTeamcityString "a|[b|]".toList = "a[b]".toList := by decide
example :
    (setMessageDetail mkTestResult (some "msg|n/path/File.php:42".toList)).messageLineNum
      = some (.num 42) := by decide
example :
    (setMessageDetail mkTestResult (some ":42".toList)).messageLineNum = none := by decide

open LoaderModel LoaderScenario in
example :
    parseTestDocument flatSettings emptyEnv emptyCatalog "t/AT.php"
        (fileDefns "t/AT.php" "A" none none none ["one", "two"])
      = flatCatalog "t/AT.php" "A" none none none ["one", "two"] := by decide

open LoaderModel LoaderScenario in
example :
    parseTestDocument flatSettings emptyEnv
        (flatCatalog "t/AT.php" "A" none none none ["one", "two"]) "t/AT.php"
        (fileDefns "t/AT.php" "A" none none none ["one", "two"])
      = flatCatalog "t/AT.php" "A" none none none ["one", "two"] := by decide

open LoaderModel LoaderScenario in
example :
    parseTestDocument flatSettings emptyEnv
        (flatCatalog "t/AT.php" "A" none none none ["one", "two"]) "t/AT.php"
        (fileDefns "t/AT.php" "A" none none none ["one"])
      = flatCatalog "t/AT.php" "A" none none none ["one"] := by decide

-- the cascade: reconciling with the class alone deletes the class node too
open LoaderModel LoaderScenario in
example :
    parseTestDocument flatSettings emptyEnv
        (flatCatalog "t/AT.php" "A" none none none ["one"]) "t/AT.php"
        (fileDefns "t/AT.php" "A" none none none [])
      = emptyCatalog := by decide

-- ... and the second pass with the same list recreates it: not idempotent
open LoaderModel LoaderScenario in
example :
    parseTestDocument flatSettings emptyEnv emptyCatalog "t/AT.php"
        (fileDefns "t/AT.php" "A" none none none [])
      = flatCatalog "t/AT.php" "A" none none none [] := by decide

-- suite organization, no suite matches: state untouched (stale nodes kept)
open LoaderModel LoaderScenario in
example :
    parseTestDocument suiteSettings emptyEnv
        (flatCatalog "t/AT.php" "A" none none none ["one"]) "t/AT.php"
        (fileDefns "t/AT.php" "A" none none none ["one"])
      = flatCatalog "t/AT.php" "A" none none none ["one"] := by decide

end Scratch

/-! ## Theorems settling the claims -/

namespace TestResultModel

theorem setFailureType_message (r : TestResult) (ft : Option (List Char)) :
    (setFailureType r ft).message = r.message := by
  unfold setFailureType; split <;> rfl

theorem setFailureType_messageDetail (r : TestResult) (ft : Option (List Char)) :
    (setFailureType r ft).messageDetail = r.messageDetail := by
  unfold setFailureType; split <;> rfl

theorem setFailureType_status (r : TestResult) (ft : Option (List Char)) :
    (setFailureType r ft).status = r.status := by
  unfold setFailureType; split <;> rfl

theorem setExpectedValue_message (r : TestResult) (v : Option (List Char)) :
    (setExpectedValue r v).message = r.message := by
  unfold setExpectedValue; split <;> rfl

theorem setExpectedValue_messageDetail (r : TestResult) (v : Option (List Char)) :
    (setExpectedValue r v).messageDetail = r.messageDetail := by
  unfold setExpectedValue; split <;> rfl

theorem setExpectedValue_status (r : TestResult) (v : Option (List Char)) :
    (setExpectedValue r v).status = r.status := by
  unfold setExpectedValue; split <;> rfl

theorem setActualValue_message (r : TestResult) (v : Option (List Char)) :
    (setActualValue r v).message = r.message := by
  unfold setActualValue; split <;> rfl

theorem setActualValue_messageDetail (r : TestResult) (v : Option (List Char)) :
    (setActualValue r v).messageDetail = r.messageDetail := by
  unfold setActualValue; split <;> rfl

theorem setActualValue_status (r : TestResult) (v : Option (List Char)) :
    (setActualValue r v).status = r.status := by
  unfold setActualValue; split <;> rfl

theorem setDataSetIdentifier_message (r : TestResult) (v : Option (List Char)) :
    (setDataSetIdentifier r v).message = r.message := by
  unfold setDataSetIdentifier; split <;> rfl

theorem setDataSetIdentifier_messageDetail (r : TestResult) (v : Option (List Char)) :
    (setDataSetIdentifier r v).messageDetail = r.messageDetail := by
  unfold setDataSetIdentifier; split <;> rfl

theorem setDataSetIdentifier_status (r : TestResult) (v : Option (List Char)) :
    (setDataSetIdentifier r v).status = r.status := by
  unfold setDataSetIdentifier; split <;> rfl

theorem setMessage_blank (r : TestResult) (m : Option (List Char))
    (h : strAbsent m = true) : setMessage r m = r := by
  unfold setMessage; simp [h]

theorem setMessageDetail_blank (r : TestResult) (m : Option (List Char))
    (h : strAbsent m = true) : setMessageDetail r m = r := by
  unfold setMessageDetail; simp [h]

/-- C10: a freshly constructed `TestResult` has status `unknown` and duration
`0`; and `markFailed`, `markErrored` and `markIgnored`, called with an
undefined or empty-string message and message detail, set their status but
leave `message` and `messageDetail` exactly as they were — in particular
still unset on a fresh result, never an empty string. -/
theorem freshResult_unknown_and_blank_marks_leave_messages_unset :
    mkTestResult.status = .unknown ∧ mkTestResult.duration = 0 ∧
    ∀ (r : TestResult) (m md ft ev av ds : Option (List Char)),
      strAbsent m = true → strAbsent md = true →
      ((markFailed r m md ft ev av ds).status = .failed ∧
       (markFailed r m md ft ev av ds).message = r.message ∧
       (markFailed r m md ft ev av ds).messageDetail = r.messageDetail ∧
       (markErrored r m md ft ev av ds).status = .error ∧
       (markErrored r m md ft ev av ds).message = r.message ∧
       (markErrored r m md ft ev av ds).messageDetail = r.messageDetail ∧
       (markIgnored r m md).status = .ignored ∧
       (markIgnored r m md).message = r.message ∧
       (markIgnored r m md).messageDetail = r.messageDetail) := by
  refine ⟨rfl, rfl, ?_⟩
  intro r m md ft ev av ds hm hmd
  unfold markFailed markErrored markIgnored
  rw [setMessage_blank _ _ hm, setMessage_blank _ _ hm, setMessage_blank _ _ hm,
    setMessageDetail_blank _ _ hmd, setMessageDetail_blank _ _ hmd,
    setMessageDetail_blank _ _ hmd]
  simp [setDataSetIdentifier_status, setDataSetIdentifier_message,
    setDataSetIdentifier_messageDetail, setActualValue_status, setActualValue_message,
    setActualValue_messageDetail, setExpectedValue_status, setExpectedValue_message,
    setExpectedValue_messageDetail, setFailureType_status, setFailureType_message,
    setFailureType_messageDetail]

/-- C10 witness: the theorem applied to a fresh result with undefined message
and empty-string detail. -/
theorem freshResult_unknown_and_blank_marks_leave_messages_unset_witness :
    (markFailed mkTestResult none (some []) none none none none).status = .failed ∧
    (markFailed mkTestResult none (some []) none none none none).message = none ∧
    (markFailed mkTestResult none (some []) none none none none).messageDetail = none := by
  have h := freshResult_unknown_and_blank_marks_leave_messages_unset
  have h3 := h.2.2 mkTestResult none (some []) none none none none (by decide) (by decide)
  exact ⟨h3.1, h3.2.1, h3.2.2.1⟩

end TestResultModel

namespace RunnerModel

/-- C7: invoking the re-run operation with no completed prior run logs the
user-facing guard message, but — the guard not returning — the following
dereference of the absent record throws a `TypeError` instead of returning
normally.  The code evaluated at the failing input. -/
theorem rerunWithoutPriorRun_logs_then_throws :
    rerunMostRecentRunRequest none = ([rerunGuardMessage], .error .typeError) := rfl

end RunnerModel

namespace LoaderModel

open LoaderScenario

/-- C1 counterexample: suite organization is configured, no suite matches the
file (the suite list is empty), and the catalog already holds a class and a
method node for the file; reconciliation leaves the class node in the
catalog, falsifying "every node previously created for that file is
removed". -/
theorem suiteMismatch_keepsStaleNodes :
    suiteSettings.useTestSuiteDefinitions = true ∧
    findSuiteForFile emptyEnv.suites "t/AT.php" = none ∧
    getTestItem
        (parseTestDocument suiteSettings emptyEnv
          (flatCatalog "t/AT.php" "A" none none none ["one"]) "t/AT.php"
          (fileDefns "t/AT.php" "A" none none none ["one"]) none)
        (ItemId.cls "t/AT.php")
      = some (classItemOf "t/AT.php" "A" none none ["one"]) := by
  refine ⟨rfl, rfl, ?_⟩
  decide

/-- C1 (amended): when suite organization is configured, no suite `TestItem`
is supplied, and no suite's include patterns match the file, reconciliation
creates no nodes for the file and leaves the whole catalog unchanged —
previously created nodes for the file are *not* removed. -/
theorem suiteMismatch_leaves_catalog_unchanged
    (st : SettingsModel) (env : LoaderEnv) (s : Catalog) (fileUri : String)
    (testDefinitions : List TestItemDefinition)
    (hSuites : st.useTestSuiteDefinitions = true)
    (hNoMatch : findSuiteForFile env.suites fileUri = none) :
    parseTestDocument st env s fileUri testDefinitions none = s := by
  unfold parseTestDocument
  simp [hSuites, hNoMatch]

/-- C1 witness: the amended theorem at the counterexample's input. -/
theorem suiteMismatch_leaves_catalog_unchanged_witness :
    parseTestDocument suiteSettings emptyEnv
        (flatCatalog "t/AT.php" "A" none none none ["one"]) "t/AT.php"
        (fileDefns "t/AT.php" "A" none none none ["one"]) none
      = flatCatalog "t/AT.php" "A" none none none ["one"] :=
  suiteMismatch_leaves_catalog_unchanged suiteSettings emptyEnv
    (flatCatalog "t/AT.php" "A" none none none ["one"]) "t/AT.php"
    (fileDefns "t/AT.php" "A" none none none ["one"]) rfl rfl

/-- C4 counterexample: two namespace mappings both satisfy the prefix and
directory conditions; the loop selects the first one in map order even
though the second has the strictly longer matching prefix. -/
theorem nsPfx_selects_first_not_longest :
    resolveNamespacePfx
        [⟨"App", "/ws/src"⟩, ⟨"App\\Sub", "/ws/src/Sub"⟩]
        "App\\Sub" "/ws/src/Sub/ThingTest.php"
      = ("App", "/ws/src") ∧
    (JsStr.jsStartsWith "App\\Sub" "App\\Sub" = true ∧
      JsStr.jsStartsWith "/ws/src/Sub/ThingTest.php" "/ws/src/Sub" = true) ∧
    "App".length < "App\\Sub".length := by
  refine ⟨by decide, ⟨by decide, by decide⟩, by decide⟩

/-- C4 (amended): among the namespace mappings whose namespace is a
string-prefix of the class namespace and whose directory is a prefix of the
class file's path, the *first one in namespace-map order* is selected (its
trailing `\` and `/` stripped) — the longest matching prefix wins only when
the map happens to be ordered that way. -/
theorem resolveNamespacePfx_eq_first_satisfying :
    ∀ (ms : List NamespaceMapping) (classNamespace classPath : String),
      resolveNamespacePfx ms classNamespace classPath =
        match ms.find? (fun m =>
            JsStr.jsStartsWith classNamespace m.namespaceName
              && JsStr.jsStartsWith classPath m.directoryPath) with
        | some m =>
          ((if JsStr.jsEndsWith m.namespaceName "\\" then JsStr.jsDropRight m.namespaceName 1
            else m.namespaceName),
           (if JsStr.jsEndsWith m.directoryPath "/" then JsStr.jsDropRight m.directoryPath 1
            else m.directoryPath))
        | none => ("", "")
  | [], _, _ => rfl
  | m :: rest, cns, path => by
    by_cases h1 : JsStr.jsStartsWith cns m.namespaceName
    · by_cases h2 : JsStr.jsStartsWith path m.directoryPath
      · simp [resolveNamespacePfx, List.find?, h1, h2]
      · simp only [resolveNamespacePfx, List.find?, h1, h2]
        simp [resolveNamespacePfx_eq_first_satisfying rest cns path]
    · simp only [resolveNamespacePfx, List.find?, h1]
      simp [h1, resolveNamespacePfx_eq_first_satisfying rest cns path]

end LoaderModel

namespace JsStr

theorem colonIndexGo_mem : ∀ (t : List Char) (i : Nat), ':' ∈ t →
    ∃ j : Nat, colonIndexGo t i = (j : Int) ∧ i ≤ j
  | c :: cs, i, hmem => by
    by_cases hc : c = ':'
    · exact ⟨i, by simp [colonIndexGo, hc], le_refl i⟩
    · have hmem' : ':' ∈ cs := by
        rcases List.mem_cons.mp hmem with h | h
        · exact absurd h.symm hc
        · exact h
      obtain ⟨j, hj, hij⟩ := colonIndexGo_mem cs (i + 1) hmem'
      exact ⟨j, by simp [colonIndexGo, hc, hj], by omega⟩

theorem colonIndexGo_not_mem : ∀ (t : List Char) (i : Nat), ':' ∉ t →
    colonIndexGo t i = -1
  | [], _, _ => rfl
  | c :: cs, i, hmem => by
    have hc : ¬ (c = ':') := fun h => hmem (h ▸ List.mem_cons_self c cs)
    simp only [colonIndexGo, hc]
    simp only [beq_iff_eq, hc, if_false]
    exact colonIndexGo_not_mem cs (i + 1) (fun h => hmem (List.mem_cons_of_mem c h))

theorem colonIndex_pos (c : Char) (t : List Char) (hc : c ≠ ':') (hmem : ':' ∈ t) :
    colonIndex (c :: t) > 0 := by
  obtain ⟨j, hj, hij⟩ := colonIndexGo_mem t 1 hmem
  simp only [colonIndex, colonIndexGo, beq_iff_eq, hc, if_false, hj]
  exact_mod_cast hij

theorem colonIndex_neg (l : List Char) (h : ':' ∉ l) : colonIndex l = -1 :=
  colonIndexGo_not_mem l 0 h

theorem takeWhile_append_stop (p : Char → Bool) :
    ∀ (xs : List Char) (y : Char) (ys : List Char),
      (∀ x ∈ xs, p x = true) → p y = false →
      (xs ++ y :: ys).takeWhile p = xs
  | [], y, ys, _, hy => by simp [List.takeWhile, hy]
  | x :: xs, y, ys, hxs, hy => by
    have hx : p x = true := hxs x (List.mem_cons_self x xs)
    simp only [List.cons_append, List.takeWhile, hx]
    rw [show xs.append (y :: ys) = xs ++ y :: ys from rfl]
    rw [takeWhile_append_stop p xs y ys (fun a ha => hxs a (List.mem_cons_of_mem x ha)) hy]

theorem afterLastColon_append (A B : List Char) (hB : ':' ∉ B) :
    afterLastColon (A ++ ':' :: B) = B := by
  unfold afterLastColon
  rw [List.reverse_append, List.reverse_cons]
  rw [List.append_assoc]
  rw [show [':'] ++ A.reverse = ':' :: A.reverse from rfl]
  rw [takeWhile_append_stop _ B.reverse ':' (A.reverse)
    (fun x hx => by
      have : x ∈ B := List.mem_reverse.mp hx
      simp only [bne_iff_ne, ne_eq]
      exact fun hxc => hB (hxc ▸ this))
    (by simp)]
  exact List.reverse_reverse B

end JsStr

namespace TestResultModel

open JsStr

/-- C6 counterexample: the detail blob `":42"` has a final line containing a
colon (at index 0), yet decoding leaves the location unset — the code demands
`indexOf(':') > 0`, so a colon at the very start of the line records nothing,
falsifying the claim for this input. -/
theorem colonAtLineStart_recordsNoLocation :
    (':' ∈ ":42".toList) ∧
    (setMessageDetail mkTestResult (some ":42".toList)).messageLineNum = none ∧
    (setMessageDetail mkTestResult (some ":42".toList)).messageLineNum
      ≠ some (JsNum.num 42) := by
  refine ⟨by decide, by decide, by decide⟩

/-- C6 (amended): for a nonempty failure detail blob, when the final
CRLF-separated line of the decoded text splits as `A ++ ':' :: B` around its
last colon and does not *start* with a colon (the code requires
`indexOf(':') > 0`), the stored location line number is `Number(B)`; when the
final line contains no colon, the location is left untouched and no error is
raised; the decoded detail is stored either way. -/
theorem setMessageDetail_lastLine_location (r : TestResult) (detail : List Char)
    (hne : detail ≠ []) :
    ((∀ A B, (splitCRLF (parseEscapedTeamcityString detail)).getLastD [] = A ++ ':' :: B →
        ':' ∉ B →
        ((splitCRLF (parseEscapedTeamcityString detail)).getLastD []).head? ≠ some ':' →
        (setMessageDetail r (some detail)).messageLineNum = some (jsNumber B)) ∧
     (':' ∉ (splitCRLF (parseEscapedTeamcityString detail)).getLastD [] →
        (setMessageDetail r (some detail)).messageLineNum = r.messageLineNum) ∧
     (setMessageDetail r (some detail)).messageDetail
        = some (parseEscapedTeamcityString detail)) := by
  have habs : strAbsent (some detail) = false := by
    simp [strAbsent, List.isEmpty_iff, hne]
  unfold setMessageDetail
  simp only [habs, Bool.false_eq_true, if_false, Option.getD_some]
  refine ⟨?_, ?_, ?_⟩
  · intro A B hsplit hB hhead
    rw [hsplit] at hhead
    rw [hsplit]
    match hA : A with
    | [] =>
      exact absurd (by simp : (([] : List Char) ++ ':' :: B).head? = some ':') hhead
    | c :: A' =>
      have hc : c ≠ ':' := by simpa using hhead
      have hmem : ':' ∈ (A' ++ ':' :: B) := List.mem_append_right A' (List.mem_cons_self ':' B)
      have hpos : colonIndex ((c :: A') ++ ':' :: B) > 0 := by
        rw [List.cons_append]
        exact colonIndex_pos c (A' ++ ':' :: B) hc hmem
      have hnonnil : (c :: A') ++ ':' :: B ≠ [] := by simp
      rw [if_pos ⟨hnonnil, hpos⟩]
      simp only [afterLastColon_append (c :: A') B hB]
  · intro hnomem
    have hneg : colonIndex ((splitCRLF (parseEscapedTeamcityString detail)).getLastD [])
        = -1 := colonIndex_neg _ hnomem
    rw [if_neg (fun h => absurd h.2 (by rw [hneg]; decide))]
  · trivial

/-- C6 witness: the amended theorem on the spec's own example — detail text
ending in `"/path/File.php:42"` yields line 42; and a colon-free detail blob
leaves the location unset. -/
theorem setMessageDetail_lastLine_location_witness :
    (setMessageDetail mkTestResult (some "/path/File.php:42".toList)).messageLineNum
        = some (JsNum.num 42) ∧
    (setMessageDetail mkTestResult (some "no colon here".toList)).messageLineNum = none := by
  constructor
  · have h := (setMessageDetail_lastLine_location mkTestResult "/path/File.php:42".toList
      (by decide)).1 "/path/File.php".toList "42".toList (by decide) (by decide) (by decide)
    rw [h]
    decide
  · have h := (setMessageDetail_lastLine_location mkTestResult "no colon here".toList
      (by decide)).2.1 (by decide)
    rw [h]
    rfl

end TestResultModel

namespace RunnerModel

theorem qSet_fresh (queue : List (String × VsTestItem)) (id : String) (item : VsTestItem)
    (h : queue.any (fun p => p.1 == id) = false) :
    qSet queue id item = queue ++ [(id, item)] := by
  simp only [qSet, h]
  simp

mutual

theorem subtreeItems_map_id (item : VsTestItem) :
    (subtreeItems item).map (fun it => it.id) = subtreeIds item := by
  match item with
  | .mk i c t ch =>
    simp only [subtreeItems, subtreeIds, List.map_cons]
    rw [subtreeItemsList_map_id ch]
    rfl

theorem subtreeItemsList_map_id (items : List VsTestItem) :
    (subtreeItemsList items).map (fun it => it.id) = subtreeIdsList items := by
  match items with
  | [] => rfl
  | it :: rest =>
    simp only [subtreeItemsList, subtreeIdsList, List.map_append]
    rw [subtreeItems_map_id it, subtreeItemsList_map_id rest]

end

mutual

theorem buildTestRunQueue_general (item : VsTestItem) :
    ∀ (queue : List (String × VsTestItem)) (enq : List String) (tagId : Option String),
      (subtreeIds item).Nodup →
      (∀ p ∈ queue, p.1 ∉ subtreeIds item) →
      buildTestRunQueue queue enq item tagId
        = (queue ++ (subtreeItems item).map (fun it => (it.id, it)),
           enq ++ filteredLeafIds tagId item) := by
  match item with
  | .mk i c t ch =>
    intro queue enq tagId hnd hq
    have hifresh : queue.any (fun p => p.1 == i) = false := by
      rw [List.any_eq_false]
      intro p hp
      simp only [beq_iff_eq]
      exact fun hpi => hq p hp (hpi ▸ List.mem_cons_self i (subtreeIdsList ch))
    have hndch : (subtreeIdsList ch).Nodup := (List.nodup_cons.mp hnd).2
    have hich : i ∉ subtreeIdsList ch := (List.nodup_cons.mp hnd).1
    simp only [buildTestRunQueue]
    rw [qSet_fresh _ _ _ hifresh]
    rw [buildTestRunQueueList_general ch (queue ++ [(i, VsTestItem.mk i c t ch)]) _ tagId hndch ?hfr]
    case hfr =>
      intro p hp
      rcases List.mem_append.mp hp with h | h
      · exact fun hmem => hq p h (List.mem_cons_of_mem i hmem)
      · have : p = (i, VsTestItem.mk i c t ch) := by simpa using h
        rw [this]
        exact hich
    refine Prod.ext ?_ ?_
    · simp only [subtreeItems, List.map_cons, VsTestItem.id]
      simp [List.append_assoc]
    · simp only [filteredLeafIds]
      cases c with
      | true => simp [passesTagFilter]
      | false =>
        cases tagId with
        | none => simp [passesTagFilter, List.append_assoc]
        | some tg =>
          by_cases htag : t.any (fun x => x == tg)
          · simp [passesTagFilter, htag, List.append_assoc]
          · simp only [Bool.not_true, passesTagFilter, htag]
            simp [htag]

theorem buildTestRunQueueList_general (items : List VsTestItem) :
    ∀ (queue : List (String × VsTestItem)) (enq : List String) (tagId : Option String),
      (subtreeIdsList items).Nodup →
      (∀ p ∈ queue, p.1 ∉ subtreeIdsList items) →
      buildTestRunQueueList queue enq items tagId
        = (queue ++ (subtreeItemsList items).map (fun it => (it.id, it)),
           enq ++ filteredLeafIdsList tagId items) := by
  match items with
  | [] =>
    intro queue enq tagId _ _
    simp [buildTestRunQueueList, subtreeItemsList, filteredLeafIdsList]
  | it :: rest =>
    intro queue enq tagId hnd hq
    have hnd1 : (subtreeIds it).Nodup := (List.nodup_append.mp (by simpa [subtreeIdsList] using hnd)).1
    have hnd2 : (subtreeIdsList rest).Nodup := (List.nodup_append.mp (by simpa [subtreeIdsList] using hnd)).2.1
    have hdisj : ∀ x ∈ subtreeIds it, x ∉ subtreeIdsList rest := by
      have hd := (List.nodup_append.mp (by simpa [subtreeIdsList] using hnd)).2.2
      intro x hx hx2
      exact hd hx hx2
    simp only [buildTestRunQueueList]
    rw [buildTestRunQueue_general it queue enq tagId hnd1
      (fun p hp => fun hmem => hq p hp (by simp [subtreeIdsList, List.mem_append]; exact Or.inl hmem))]
    rw [buildTestRunQueueList_general rest _ _ tagId hnd2 ?hfr]
    case hfr =>
      intro p hp
      rcases List.mem_append.mp hp with h | h
      · exact fun hmem => hq p h (by simp [subtreeIdsList, List.mem_append]; exact Or.inr hmem)
      · intro hmem
        have hpid : p.1 ∈ subtreeIds it := by
          have : p ∈ (subtreeItems it).map (fun x => (x.id, x)) := h
          rw [List.mem_map] at this
          obtain ⟨x, hx, hpx⟩ := this
          rw [← hpx]
          rw [← subtreeItems_map_id it]
          exact List.mem_map_of_mem _ hx
        exact hdisj p.1 hpid hmem
    simp [subtreeItemsList, filteredLeafIdsList, List.append_assoc]

end

/-- C9: after building the run queue from a selection root (with
pairwise-distinct node IDs), the queue map holds exactly one entry per node
of the root's subtree, keyed by node ID — non-leaf nodes and unmatched
leaves included; the enqueued marks are exactly the leaves
(`canResolveChildren = false`) passing the tag filter; and the queue's
contents are independent of the tag filter. -/
theorem buildTestRunQueue_queue_is_subtree (root : VsTestItem) (tagId : Option String)
    (hnd : (subtreeIds root).Nodup) :
    (buildTestRunQueue [] [] root tagId).1.map Prod.fst = subtreeIds root ∧
    (buildTestRunQueue [] [] root tagId).1
      = (subtreeItems root).map (fun it => (it.id, it)) ∧
    (buildTestRunQueue [] [] root tagId).2 = filteredLeafIds tagId root ∧
    ∀ tagId', (buildTestRunQueue [] [] root tagId).1
      = (buildTestRunQueue [] [] root tagId').1 := by
  have h := buildTestRunQueue_general root [] [] tagId hnd (by simp)
  refine ⟨?_, ?_, ?_, ?_⟩
  · rw [h]
    simpa using subtreeItems_map_id root
  · rw [h]; simp
  · rw [h]; simp
  · intro tagId'
    have h' := buildTestRunQueue_general root [] [] tagId' hnd (by simp)
    rw [h, h']

/-- C9 witness: a class node with a tagged and an untagged method, built with
a tag filter — all three nodes are in the queue, only the tagged leaf is
enqueued. -/
theorem buildTestRunQueue_queue_is_subtree_witness :
    (buildTestRunQueue [] []
        (.mk "C" true [] [.mk "m1" false ["slow"] [], .mk "m2" false [] []])
        (some "slow")).1.map Prod.fst = ["C", "m1", "m2"] ∧
    (buildTestRunQueue [] []
        (.mk "C" true [] [.mk "m1" false ["slow"] [], .mk "m2" false [] []])
        (some "slow")).2 = ["m1"] := by
  have h := buildTestRunQueue_queue_is_subtree
    (.mk "C" true [] [.mk "m1" false ["slow"] [], .mk "m2" false [] []])
    (some "slow") (by decide)
  exact ⟨by rw [h.1]; decide, by rw [h.2.2.1]; decide⟩

end RunnerModel

namespace RunnerModel

theorem checkMappings_ok (env : RunnerEnv) (relativePath : String) :
    ∀ mappings : List (String × String),
      (∀ p ∈ mappings, jsRegexSyntaxOk p.1 = true ∧ jsRegexSyntaxOk p.2 = true) →
      ∃ b, checkMappings env relativePath mappings = .ok b
  | [], _ => ⟨false, rfl⟩
  | (srcPat, tstPat) :: rest, hvalid => by
    have h1 := (hvalid (srcPat, tstPat) (List.mem_cons_self _ _)).1
    have h2 := (hvalid (srcPat, tstPat) (List.mem_cons_self _ _)).2
    simp only [checkMappings, jsRegexCompile, h1, h2, if_true]
    by_cases hm : env.regexTest srcPat relativePath || env.regexTest tstPat relativePath
    · exact ⟨true, by simp [hm]⟩
    · obtain ⟨b, hb⟩ := checkMappings_ok env relativePath rest
        (fun p hp => hvalid p (List.mem_cons_of_mem _ hp))
      exact ⟨b, by simp [hm, hb]⟩

theorem checkForActiveContinuousRunGo_ok (env : RunnerEnv)
    (allSubs : List (RelPattern × ContinuousRunDef)) (relativePath : String)
    (hvalid : ∀ p ∈ env.pathMappings, jsRegexSyntaxOk p.1 = true ∧ jsRegexSyntaxOk p.2 = true) :
    ∀ l, ∃ b, checkForActiveContinuousRunGo env allSubs relativePath l = .ok b
  | [] => ⟨[], rfl⟩
  | (testPattern, continuousRun) :: rest => by
    simp only [checkForActiveContinuousRunGo]
    by_cases hg : (JsStr.jsContainsChar testPattern.pattern '*'
        || JsStr.jsContainsChar testPattern.pattern '\x7b') = true
    · exact ⟨[continuousRun], by simp [hg]⟩
    · simp only [hg, if_false]
      by_cases h1 : ((if (testMethodSuffix testPattern.pattern).isSome then
            LoaderModel.jsReplaceFirst testPattern.pattern "::\x7bmethodName\x7d" ""
          else testPattern.pattern) == relativePath) = true
      · exact ⟨runAllContinuousTests allSubs, by simp [h1]⟩
      · simp only [h1, if_false]
        by_cases h2 : (convertTestPathToSourcePath
            (if (testMethodSuffix testPattern.pattern).isSome then
              LoaderModel.jsReplaceFirst testPattern.pattern "::\x7bmethodName\x7d" ""
            else testPattern.pattern) == relativePath) = true
        · exact ⟨runAllContinuousTests allSubs, by simp [h2]⟩
        · simp only [h2, if_false]
          obtain ⟨b, hb⟩ := checkMappings_ok env relativePath env.pathMappings hvalid
          rw [hb]
          cases b with
          | true => exact ⟨runAllContinuousTests allSubs, rfl⟩
          | false =>
            exact checkForActiveContinuousRunGo_ok env allSubs relativePath hvalid rest

theorem checkForActiveContinuousRunGo_match (env : RunnerEnv)
    (allSubs : List (RelPattern × ContinuousRunDef)) (relativePath : String)
    (hvalid : ∀ p ∈ env.pathMappings, jsRegexSyntaxOk p.1 = true ∧ jsRegexSyntaxOk p.2 = true) :
    ∀ l, (∀ q ∈ l, (JsStr.jsContainsChar q.1.pattern '*'
            || JsStr.jsContainsChar q.1.pattern '\x7b') = false) →
      (∃ q ∈ l, exactPatternMatches env q.1.pattern relativePath = true) →
      checkForActiveContinuousRunGo env allSubs relativePath l
        = .ok (runAllContinuousTests allSubs)
  | [], _, hex => by simp at hex
  | (testPattern, continuousRun) :: rest, hng, hex => by
    have hg := hng (testPattern, continuousRun) (List.mem_cons_self _ _)
    simp only [checkForActiveContinuousRunGo, hg, Bool.false_eq_true, if_false]
    by_cases h1 : ((if (testMethodSuffix testPattern.pattern).isSome then
          LoaderModel.jsReplaceFirst testPattern.pattern "::\x7bmethodName\x7d" ""
        else testPattern.pattern) == relativePath) = true
    · simp [h1]
    · simp only [h1, if_false]
      by_cases h2 : (convertTestPathToSourcePath
          (if (testMethodSuffix testPattern.pattern).isSome then
            LoaderModel.jsReplaceFirst testPattern.pattern "::\x7bmethodName\x7d" ""
          else testPattern.pattern) == relativePath) = true
      · simp [h2]
      · simp only [h2, if_false]
        obtain ⟨b, hb⟩ := checkMappings_ok env relativePath env.pathMappings hvalid
        rw [hb]
        cases b with
        | true => rfl
        | false =>
          have hheadfail : exactPatternMatches env testPattern.pattern relativePath = false := by
            unfold exactPatternMatches
            simp only [h1, h2, hb, Bool.false_or]
          have hex' : ∃ q ∈ rest, exactPatternMatches env q.1.pattern relativePath = true := by
            obtain ⟨q, hq, hqm⟩ := hex
            rcases List.mem_cons.mp hq with rfl | hq'
            · rw [hheadfail] at hqm; exact absurd hqm (by decide)
            · exact ⟨q, hq', hqm⟩
          exact checkForActiveContinuousRunGo_match env allSubs relativePath hvalid rest
            (fun q hq => hng q (List.mem_cons_of_mem _ hq)) hex'

/-- C8 counterexample: with an exact-file subscription, a changed file
matching nothing, and a `continuous.pathMappings` entry whose source pattern
is the invalid regex `"("`, evaluating the changed file against the active
subscriptions throws a `SyntaxError` (from `new RegExp`), falsifying
"matching never raises for every settings value". -/
theorem continuousRun_invalidRegex_throws :
    checkForActiveContinuousRun ⟨[("(", "x")], fun _ _ => false⟩
        [(⟨"tests/ZzzTest.php"⟩, ⟨0⟩)] "other/File.php"
      = .error .syntaxError := rfl

/-- C8 (amended): provided every configured regex pair in
`continuous.pathMappings` is syntactically valid, evaluating a changed file
against the active subscriptions never raises; and when no wildcard
subscription is registered (a wildcard short-circuits the scan), any positive
match of an exact-file pattern — by path equality, test-to-source path
inference, or a configured regex pair — re-triggers *every* active
subscription, not only the matched one.  With an invalid regex in the
settings the evaluation throws a `SyntaxError`. -/
theorem continuousRun_match_triggers_all_and_never_raises (env : RunnerEnv)
    (subs : List (RelPattern × ContinuousRunDef)) (relativePath : String)
    (hvalid : ∀ p ∈ env.pathMappings, jsRegexSyntaxOk p.1 = true ∧ jsRegexSyntaxOk p.2 = true) :
    (∃ b, checkForActiveContinuousRun env subs relativePath = .ok b) ∧
    ((∀ q ∈ subs, (JsStr.jsContainsChar q.1.pattern '*'
          || JsStr.jsContainsChar q.1.pattern '\x7b') = false) →
      (∃ q ∈ subs, exactPatternMatches env q.1.pattern relativePath = true) →
      checkForActiveContinuousRun env subs relativePath
        = .ok (runAllContinuousTests subs)) := by
  constructor
  · exact checkForActiveContinuousRunGo_ok env subs relativePath hvalid subs
  · intro hng hex
    exact checkForActiveContinuousRunGo_match env subs relativePath hvalid subs hng hex

/-- C8 witness: one exact-file subscription and a change to that very file —
the evaluation completes without raising and re-triggers all (here: the one)
active subscriptions. -/
theorem continuousRun_match_triggers_all_witness :
    checkForActiveContinuousRun ⟨[], fun _ _ => false⟩
        [(⟨"tests/AFooTest.php"⟩, ⟨7⟩)] "tests/AFooTest.php"
      = .ok [⟨7⟩] := by
  have h := (continuousRun_match_triggers_all_and_never_raises
      ⟨[], fun _ _ => false⟩ [(⟨"tests/AFooTest.php"⟩, ⟨7⟩)] "tests/AFooTest.php"
      (by intro p hp; simp at hp)).2
    (by intro q hq; simp at hq; rw [hq]; rfl)
    ⟨(⟨"tests/AFooTest.php"⟩, ⟨7⟩), List.mem_cons_self _ _, rfl⟩
  exact h

end RunnerModel

namespace JsStr

theorem isPrefixOf_append_self : ∀ (l t : List Char), l.isPrefixOf (l ++ t) = true
  | [], _ => by simp [List.isPrefixOf]
  | a :: as, t => by
    simp only [List.cons_append, List.isPrefixOf, beq_self_eq_true, Bool.true_and]
    exact isPrefixOf_append_self as t

theorem replaceAllGo_skip (pat repl : List Char) : ∀ (xs s : List Char),
    replaceAllGo pat repl (xs ++ s) xs.length = replaceAllGo pat repl s 0
  | [], _ => rfl
  | x :: xs, s => by
    show replaceAllGo pat repl (x :: (xs ++ s)) (xs.length + 1) = _
    rw [show replaceAllGo pat repl (x :: (xs ++ s)) (xs.length + 1)
        = replaceAllGo pat repl (xs ++ s) xs.length from rfl]
    exact replaceAllGo_skip pat repl xs s

theorem replaceAllGo_match_pfx (c : Char) (cs repl s : List Char) :
    replaceAllGo (c :: cs) repl ((c :: cs) ++ s) 0
      = repl ++ replaceAllGo (c :: cs) repl s 0 := by
  show replaceAllGo (c :: cs) repl (c :: (cs ++ s)) 0 = _
  rw [replaceAllGo]
  rw [if_pos]
  · rw [show (c :: cs).length - 1 = cs.length from by simp]
    rw [replaceAllGo_skip (c :: cs) repl cs s]
  · rw [show c :: (cs ++ s) = (c :: cs) ++ s from rfl]
    exact isPrefixOf_append_self (c :: cs) s

theorem go_cons_safe (pat repl : List Char) (c : Char) (t : List Char)
    (h : pat.isPrefixOf (c :: t) = false) :
    replaceAllGo pat repl (c :: t) 0 = c :: replaceAllGo pat repl t 0 := by
  rw [replaceAllGo]
  rw [if_neg]
  simp [h]

theorem pfx1_false (a : Char) (as : List Char) (c : Char) (t : List Char)
    (h : (a == c) = false) :
    ((a :: as).isPrefixOf (c :: t)) = false := by
  simp only [List.isPrefixOf, h, Bool.false_and]

theorem pfx2_false (a b : Char) (as : List Char) (c d : Char) (t : List Char)
    (h : (a == c && (b == d)) = false) :
    ((a :: b :: as).isPrefixOf (c :: d :: t)) = false := by
  simp only [List.isPrefixOf]
  cases hac : a == c with
  | false => simp
  | true =>
    have hbd : (b == d) = false := by
      rw [hac] at h
      simpa using h
    simp [hbd]

end JsStr

namespace TestResultModel

open JsStr

theorem stage_fold (pat repl : List Char) (f g : TcTok → List Char)
    (hstep : ∀ t s, replaceAllGo pat repl (f t ++ s) 0 = g t ++ replaceAllGo pat repl s 0) :
    ∀ ts : List TcTok, replaceAll pat repl ((ts.map f).flatten) = (ts.map g).flatten
  | [] => rfl
  | t :: ts => by
    simp only [List.map_cons, List.flatten_cons]
    show replaceAllGo pat repl (f t ++ (ts.map f).flatten) 0 = _
    rw [hstep t ((ts.map f).flatten)]
    rw [show replaceAllGo pat repl ((ts.map f).flatten) 0
        = replaceAll pat repl ((ts.map f).flatten) from rfl]
    rw [stage_fold pat repl f g hstep ts]

theorem stageA_eq (ts : List TcTok) :
    replaceAll ['|', '\''] ['\''] (encodedOf ts) = (ts.map tokStageA).flatten := by
  refine stage_fold _ _ tokEnc tokStageA ?_ ts
  intro t s
  cases t <;> simp only [tokEnc, tokStageA, List.cons_append, List.nil_append]
  · exact replaceAllGo_match_pfx '|' ['\''] ['\''] s
  · rw [go_cons_safe _ _ _ _ (by first
      | exact pfx1_false _ _ _ _ (by decide)
      | exact pfx2_false _ _ _ _ _ _ (by decide))]
    rw [go_cons_safe _ _ _ _ (by first
      | exact pfx1_false _ _ _ _ (by decide)
      | exact pfx2_false _ _ _ _ _ _ (by decide))]
  · rw [go_cons_safe _ _ _ _ (by first
      | exact pfx1_false _ _ _ _ (by decide)
      | exact pfx2_false _ _ _ _ _ _ (by decide))]
    rw [go_cons_safe _ _ _ _ (by first
      | exact pfx1_false _ _ _ _ (by decide)
      | exact pfx2_false _ _ _ _ _ _ (by decide))]
  · rw [go_cons_safe _ _ _ _ (by first
      | exact pfx1_false _ _ _ _ (by decide)
      | exact pfx2_false _ _ _ _ _ _ (by decide))]
    rw [go_cons_safe _ _ _ _ (by first
      | exact pfx1_false _ _ _ _ (by decide)
      | exact pfx2_false _ _ _ _ _ _ (by decide))]
  · rw [go_cons_safe _ _ _ _ (by first
      | exact pfx1_false _ _ _ _ (by decide)
      | exact pfx2_false _ _ _ _ _ _ (by decide))]
    rw [go_cons_safe _ _ _ _ (by first
      | exact pfx1_false _ _ _ _ (by decide)
      | exact pfx2_false _ _ _ _ _ _ (by decide))]
  · rw [go_cons_safe _ _ _ _ (by first
      | exact pfx1_false _ _ _ _ (by decide)
      | exact pfx2_false _ _ _ _ _ _ (by decide))]
    rw [go_cons_safe _ _ _ _ (by first
      | exact pfx1_false _ _ _ _ (by decide)
      | exact pfx2_false _ _ _ _ _ _ (by decide))]
    rw [go_cons_safe _ _ _ _ (by first
      | exact pfx1_false _ _ _ _ (by decide)
      | exact pfx2_false _ _ _ _ _ _ (by decide))]
    rw [go_cons_safe _ _ _ _ (by first
      | exact pfx1_false _ _ _ _ (by decide)
      | exact pfx2_false _ _ _ _ _ _ (by decide))]

theorem stageB_eq (ts : List TcTok) :
    replaceAll ['|', '"'] ['"'] ((ts.map tokStageA).flatten) = (ts.map tokStageB).flatten := by
  refine stage_fold _ _ tokStageA tokStageB ?_ ts
  intro t s
  cases t <;> simp only [tokEnc, tokStageA, tokStageB, List.cons_append, List.nil_append]
  · rw [go_cons_safe _ _ _ _ (by first
      | exact pfx1_false _ _ _ _ (by decide)
      | exact pfx2_false _ _ _ _ _ _ (by decide))]
  · exact replaceAllGo_match_pfx '|' ['"'] ['"'] s
  · rw [go_cons_safe _ _ _ _ (by first
      | exact pfx1_false _ _ _ _ (by decide)
      | exact pfx2_false _ _ _ _ _ _ (by decide))]
    rw [go_cons_safe _ _ _ _ (by first
      | exact pfx1_false _ _ _ _ (by decide)
      | exact pfx2_false _ _ _ _ _ _ (by decide))]
  · rw [go_cons_safe _ _ _ _ (by first
      | exact pfx1_false _ _ _ _ (by decide)
      | exact pfx2_false _ _ _ _ _ _ (by decide))]
    rw [go_cons_safe _ _ _ _ (by first
      | exact pfx1_false _ _ _ _ (by decide)
      | exact pfx2_false _ _ _ _ _ _ (by decide))]
  · rw [go_cons_safe _ _ _ _ (by first
      | exact pfx1_false _ _ _ _ (by decide)
      | exact pfx2_false _ _ _ _ _ _ (by decide))]
    rw [go_cons_safe _ _ _ _ (by first
      | exact pfx1_false _ _ _ _ (by decide)
      | exact pfx2_false _ _ _ _ _ _ (by decide))]
  · rw [go_cons_safe _ _ _ _ (by first
      | exact pfx1_false _ _ _ _ (by decide)
      | exact pfx2_false _ _ _ _ _ _ (by decide))]
    rw [go_cons_safe _ _ _ _ (by first
      | exact pfx1_false _ _ _ _ (by decide)
      | exact pfx2_false _ _ _ _ _ _ (by decide))]
    rw [go_cons_safe _ _ _ _ (by first
      | exact pfx1_false _ _ _ _ (by decide)
      | exact pfx2_false _ _ _ _ _ _ (by decide))]
    rw [go_cons_safe _ _ _ _ (by first
      | exact pfx1_false _ _ _ _ (by decide)
      | exact pfx2_false _ _ _ _ _ _ (by decide))]

theorem stageC_eq (ts : List TcTok) :
    replaceAll ['|', '['] ['['] ((ts.map tokStageB).flatten) = (ts.map tokStageC).flatten := by
  refine stage_fold _ _ tokStageB tokStageC ?_ ts
  intro t s
  cases t <;>
    simp only [tokEnc, tokStageA, tokStageB, tokStageC, List.cons_append, List.nil_append]
  · rw [go_cons_safe _ _ _ _ (by first
      | exact pfx1_false _ _ _ _ (by decide)
      | exact pfx2_false _ _ _ _ _ _ (by decide))]
  · rw [go_cons_safe _ _ _ _ (by first
      | exact pfx1_false _ _ _ _ (by decide)
      | exact pfx2_false _ _ _ _ _ _ (by decide))]
  · exact replaceAllGo_match_pfx '|' ['['] ['['] s
  · rw [go_cons_safe _ _ _ _ (by first
      | exact pfx1_false _ _ _ _ (by decide)
      | exact pfx2_false _ _ _ _ _ _ (by decide))]
    rw [go_cons_safe _ _ _ _ (by first
      | exact pfx1_false _ _ _ _ (by decide)
      | exact pfx2_false _ _ _ _ _ _ (by decide))]
  · rw [go_cons_safe _ _ _ _ (by first
      | exact pfx1_false _ _ _ _ (by decide)
      | exact pfx2_false _ _ _ _ _ _ (by decide))]
    rw [go_cons_safe _ _ _ _ (by first
      | exact pfx1_false _ _ _ _ (by decide)
      | exact pfx2_false _ _ _ _ _ _ (by decide))]
  · rw [go_cons_safe _ _ _ _ (by first
      | exact pfx1_false _ _ _ _ (by decide)
      | exact pfx2_false _ _ _ _ _ _ (by decide))]
    rw [go_cons_safe _ _ _ _ (by first
      | exact pfx1_false _ _ _ _ (by decide)
      | exact pfx2_false _ _ _ _ _ _ (by decide))]
    rw [go_cons_safe _ _ _ _ (by first
      | exact pfx1_false _ _ _ _ (by decide)
      | exact pfx2_false _ _ _ _ _ _ (by decide))]
    rw [go_cons_safe _ _ _ _ (by first
      | exact pfx1_false _ _ _ _ (by decide)
      | exact pfx2_false _ _ _ _ _ _ (by decide))]

theorem stageD_eq (ts : List TcTok) :
    replaceAll ['|', ']'] [']'] ((ts.map tokStageC).flatten) = (ts.map tokStageD).flatten := by
  refine stage_fold _ _ tokStageC tokStageD ?_ ts
  intro t s
  cases t <;>
    simp only [tokEnc, tokStageA, tokStageB, tokStageC, tokStageD,
      List.cons_append, List.nil_append]
  · rw [go_cons_safe _ _ _ _ (by first
      | exact pfx1_false _ _ _ _ (by decide)
      | exact pfx2_false _ _ _ _ _ _ (by decide))]
  · rw [go_cons_safe _ _ _ _ (by first
      | exact pfx1_false _ _ _ _ (by decide)
      | exact pfx2_false _ _ _ _ _ _ (by decide))]
  · rw [go_cons_safe _ _ _ _ (by first
      | exact pfx1_false _ _ _ _ (by decide)
      | exact pfx2_false _ _ _ _ _ _ (by decide))]
  · exact replaceAllGo_match_pfx '|' [']'] [']'] s
  · rw [go_cons_safe _ _ _ _ (by first
      | exact pfx1_false _ _ _ _ (by decide)
      | exact pfx2_false _ _ _ _ _ _ (by decide))]
    rw [go_cons_safe _ _ _ _ (by first
      | exact pfx1_false _ _ _ _ (by decide)
      | exact pfx2_false _ _ _ _ _ _ (by decide))]
  · rw [go_cons_safe _ _ _ _ (by first
      | exact pfx1_false _ _ _ _ (by decide)
      | exact pfx2_false _ _ _ _ _ _ (by decide))]
    rw [go_cons_safe _ _ _ _ (by first
      | exact pfx1_false _ _ _ _ (by decide)
      | exact pfx2_false _ _ _ _ _ _ (by decide))]
    rw [go_cons_safe _ _ _ _ (by first
      | exact pfx1_false _ _ _ _ (by decide)
      | exact pfx2_false _ _ _ _ _ _ (by decide))]
    rw [go_cons_safe _ _ _ _ (by first
      | exact pfx1_false _ _ _ _ (by decide)
      | exact pfx2_false _ _ _ _ _ _ (by decide))]

theorem stageE_eq (ts : List TcTok) :
    replaceAll ['|', 'r', '|', 'n'] ['\r', '\n'] ((ts.map tokStageD).flatten)
      = (ts.map tokStageE).flatten := by
  refine stage_fold _ _ tokStageD tokStageE ?_ ts
  intro t s
  cases t <;>
    simp only [tokEnc, tokStageA, tokStageB, tokStageC, tokStageD, tokStageE,
      List.cons_append, List.nil_append]
  · rw [go_cons_safe _ _ _ _ (by first
      | exact pfx1_false _ _ _ _ (by decide)
      | exact pfx2_false _ _ _ _ _ _ (by decide))]
  · rw [go_cons_safe _ _ _ _ (by first
      | exact pfx1_false _ _ _ _ (by decide)
      | exact pfx2_false _ _ _ _ _ _ (by decide))]
  · rw [go_cons_safe _ _ _ _ (by first
      | exact pfx1_false _ _ _ _ (by decide)
      | exact pfx2_false _ _ _ _ _ _ (by decide))]
  · rw [go_cons_safe _ _ _ _ (by first
      | exact pfx1_false _ _ _ _ (by decide)
      | exact pfx2_false _ _ _ _ _ _ (by decide))]
  · rw [go_cons_safe _ _ _ _ (by first
      | exact pfx1_false _ _ _ _ (by decide)
      | exact pfx2_false _ _ _ _ _ _ (by decide))]
    rw [go_cons_safe _ _ _ _ (by first
      | exact pfx1_false _ _ _ _ (by decide)
      | exact pfx2_false _ _ _ _ _ _ (by decide))]
  · exact replaceAllGo_match_pfx '|' ['r', '|', 'n'] ['\r', '\n'] s

theorem stageF_eq (ts : List TcTok) :
    replaceAll ['|', 'n'] ['\n'] ((ts.map tokStageE).flatten) = decodedOf ts := by
  refine stage_fold _ _ tokStageE tokChars ?_ ts
  intro t s
  cases t <;>
    simp only [tokEnc, tokStageA, tokStageB, tokStageC, tokStageD, tokStageE, tokChars,
      List.cons_append, List.nil_append]
  · rw [go_cons_safe _ _ _ _ (by first
      | exact pfx1_false _ _ _ _ (by decide)
      | exact pfx2_false _ _ _ _ _ _ (by decide))]
  · rw [go_cons_safe _ _ _ _ (by first
      | exact pfx1_false _ _ _ _ (by decide)
      | exact pfx2_false _ _ _ _ _ _ (by decide))]
  · rw [go_cons_safe _ _ _ _ (by first
      | exact pfx1_false _ _ _ _ (by decide)
      | exact pfx2_false _ _ _ _ _ _ (by decide))]
  · rw [go_cons_safe _ _ _ _ (by first
      | exact pfx1_false _ _ _ _ (by decide)
      | exact pfx2_false _ _ _ _ _ _ (by decide))]
  · exact replaceAllGo_match_pfx '|' ['n'] ['\n'] s
  · rw [go_cons_safe _ _ _ _ (by first
      | exact pfx1_false _ _ _ _ (by decide)
      | exact pfx2_false _ _ _ _ _ _ (by decide))]
    rw [go_cons_safe _ _ _ _ (by first
      | exact pfx1_false _ _ _ _ (by decide)
      | exact pfx2_false _ _ _ _ _ _ (by decide))]

/-- C5 counterexample: the token string `|n` (the encoding of `"\n"`)
decodes to the empty string, because the decoder ends with `trim()` —
so `decode(encode("\n")) ≠ "\n"`, falsifying the round-trip as claimed. -/
theorem escapeRoundTrip_fails_on_lf :
    parseEscapedTeamcityString (encodedOf [TcTok.lf]) ≠ decodedOf [TcTok.lf] := by
  decide

/-- C5 (amended): for every string built only from the escape tokens, the
decoder replaces each token by its character (`|r|n` before `|n`) and then
trims whitespace from *both* ends — so `decode(encode(s)) = trim(s)`, and the
round-trip `decode(encode(s)) = s` holds exactly when `s` neither starts nor
ends with whitespace (no leading or trailing `|n` / `|r|n` token). -/
theorem parseEscaped_encodedOf_eq_trim_decodedOf (ts : List TcTok) :
    parseEscapedTeamcityString (encodedOf ts) = jsTrim (decodedOf ts) := by
  show jsTrim
      (replaceAll ['|', 'n'] ['\n']
        (replaceAll ['|', 'r', '|', 'n'] ['\r', '\n']
          (replaceAll ['|', ']'] [']']
            (replaceAll ['|', '['] ['[']
              (replaceAll ['|', '"'] ['"']
                (replaceAll ['|', '\''] ['\''] (encodedOf ts)))))))
      = jsTrim (decodedOf ts)
  rw [stageA_eq ts, stageB_eq ts, stageC_eq ts, stageD_eq ts, stageE_eq ts, stageF_eq ts]

end TestResultModel

namespace LoaderScenario

open LoaderModel

@[simp]
theorem cls_beq_method (f f' m : String) :
    (ItemId.cls f == ItemId.method f' m) = false := by
  simp

@[simp]
theorem method_beq_cls (f f' m : String) :
    (ItemId.method f m == ItemId.cls f') = false := by
  simp

theorem method_beq_method (f m m' : String) :
    (ItemId.method f m == ItemId.method f m') = (m == m') := by
  simp [beq_iff_eq]

@[simp]
theorem classItemOf_id (f c : String) (ns : Option String) (rc : Option Nat)
    (ms : List String) : (classItemOf f c ns rc ms).id = ItemId.cls f := rfl

@[simp]
theorem classItemOf_children (f c : String) (ns : Option String) (rc : Option Nat)
    (ms : List String) :
    (classItemOf f c ns rc ms).children = ms.map (fun m => ItemId.method f m) := rfl

@[simp]
theorem methodItemOf_id (f m : String) (rm : Option Nat) :
    (methodItemOf f m rm).id = ItemId.method f m := rfl

@[simp]
theorem methodItemOf_parent (f m : String) (rm : Option Nat) :
    (methodItemOf f m rm).parent = some (ItemId.cls f) := rfl

@[simp]
theorem classDefn_uri (f c : String) (ns : Option String) (rc : Option Nat) :
    (classDefn f c ns rc).uri = f := rfl

@[simp]
theorem methodDefn_uri (f m : String) (rm : Option Nat) :
    (methodDefn f m rm).uri = f := rfl

theorem flat_find_def_cls (f c : String) (ns : Option String) (rc rm : Option Nat)
    (ms : List String) :
    (flatCatalog f c ns rc rm ms).itemMap.find? (fun p => p.1 == ItemId.cls f)
      = some (ItemId.cls f, classDefn f c ns rc) := by
  simp [flatCatalog, List.find?]

theorem flat_find_def_method_none (f c : String) (ns : Option String) (rc rm : Option Nat)
    (ms : List String) (m : String) (h : m ∉ ms) :
    (flatCatalog f c ns rc rm ms).itemMap.find? (fun p => p.1 == ItemId.method f m)
      = none := by
  simp only [flatCatalog, List.find?, cls_beq_method]
  rw [List.find?_eq_none]
  intro p hp
  rw [List.mem_map] at hp
  obtain ⟨m', hm', rfl⟩ := hp
  simp only [method_beq_method, Bool.not_eq_true, beq_eq_false_iff_ne, ne_eq]
  exact fun hmm => h (hmm ▸ hm')

theorem flat_find_def_method_mem (f c : String) (ns : Option String) (rc rm : Option Nat) :
    ∀ (ms : List String) (m : String), m ∈ ms →
    (flatCatalog f c ns rc rm ms).itemMap.find? (fun p => p.1 == ItemId.method f m)
      = some (ItemId.method f m, methodDefn f m rm)
  | [], m, h => absurd h (List.not_mem_nil m)
  | a :: ms, m, h => by
    by_cases ham : a = m
    · subst ham
      simp [flatCatalog, List.find?]
    · have hm : m ∈ ms := by
        rcases List.mem_cons.mp h with h' | h'
        · exact absurd h'.symm ham
        · exact h'
      have ih := flat_find_def_method_mem f c ns rc rm ms m hm
      simp only [flatCatalog, List.find?, cls_beq_method, List.map_cons] at ih ⊢
      rw [show (ItemId.method f a == ItemId.method f m) = false by
        rw [method_beq_method]; exact beq_false_of_ne ham]
      exact ih

theorem flat_findItem_cls (f c : String) (ns : Option String) (rc rm : Option Nat)
    (ms : List String) :
    findItem (flatCatalog f c ns rc rm ms) (ItemId.cls f)
      = some (classItemOf f c ns rc ms) := by
  simp [findItem, flatCatalog, List.find?, classItemOf]

theorem flat_findItem_method_none (f c : String) (ns : Option String) (rc rm : Option Nat)
    (ms : List String) (m : String) (h : m ∉ ms) :
    findItem (flatCatalog f c ns rc rm ms) (ItemId.method f m) = none := by
  simp only [findItem, flatCatalog, List.find?, classItemOf_id, cls_beq_method]
  rw [List.find?_eq_none]
  intro it hit
  rw [List.mem_map] at hit
  obtain ⟨m', hm', rfl⟩ := hit
  simp only [methodItemOf_id, method_beq_method, Bool.not_eq_true, beq_eq_false_iff_ne, ne_eq]
  exact fun hmm => h (hmm ▸ hm')

theorem flat_findItem_method_mem (f c : String) (ns : Option String) (rc rm : Option Nat) :
    ∀ (ms : List String) (m : String), m ∈ ms →
    findItem (flatCatalog f c ns rc rm ms) (ItemId.method f m)
      = some (methodItemOf f m rm) := by
  intro ms m h
  simp only [findItem, flatCatalog, List.find?, classItemOf_id, cls_beq_method]
  induction ms with
  | nil => exact absurd h (List.not_mem_nil m)
  | cons a ms ih =>
    by_cases ham : a = m
    · subst ham
      simp [List.find?]
    · have hm : m ∈ ms := by
        rcases List.mem_cons.mp h with h' | h'
        · exact absurd h'.symm ham
        · exact h'
      simp only [List.map_cons, List.find?]
      rw [show ((methodItemOf f a rm).id == ItemId.method f m) = false by
        rw [methodItemOf_id, method_beq_method]; exact beq_false_of_ne ham]
      exact ih hm

theorem flat_getTestItem_cls (f c : String) (ns : Option String) (rc rm : Option Nat)
    (ms : List String) :
    getTestItem (flatCatalog f c ns rc rm ms) (ItemId.cls f)
      = some (classItemOf f c ns rc ms) := by
  simp [getTestItem, flat_find_def_cls, flat_findItem_cls]

theorem flat_getTestItem_method_none (f c : String) (ns : Option String) (rc rm : Option Nat)
    (ms : List String) (m : String) (h : m ∉ ms) :
    getTestItem (flatCatalog f c ns rc rm ms) (ItemId.method f m) = none := by
  simp [getTestItem, flat_find_def_method_none f c ns rc rm ms m h]

theorem flat_getTestItem_method_mem (f c : String) (ns : Option String) (rc rm : Option Nat)
    (ms : List String) (m : String) (h : m ∈ ms) :
    getTestItem (flatCatalog f c ns rc rm ms) (ItemId.method f m)
      = some (methodItemOf f m rm) := by
  simp [getTestItem, flat_find_def_method_mem f c ns rc rm ms m h,
    flat_findItem_method_mem f c ns rc rm ms m h]

theorem flat_getTestDefinition_cls (f c : String) (ns : Option String) (rc rm : Option Nat)
    (ms : List String) :
    getTestDefinition (flatCatalog f c ns rc rm ms) (ItemId.cls f)
      = some (classDefn f c ns rc) := by
  simp [getTestDefinition, flat_find_def_cls]

theorem filterMap_method_pairs (f : String) (rm : Option Nat) :
    ∀ msx : List String,
      List.filterMap (fun p => if p.2.uri == f then some p.1 else none)
        (msx.map (fun m => (ItemId.method f m, methodDefn f m rm)))
      = msx.map (fun m => ItemId.method f m)
  | [] => rfl
  | a :: msx => by
    simp only [List.map_cons, List.filterMap_cons, methodDefn_uri, beq_self_eq_true, if_true]
    rw [filterMap_method_pairs f rm msx]

theorem flat_ids_for_file (f c : String) (ns : Option String) (rc rm : Option Nat)
    (ms : List String) :
    getTestItemIdsForFile (flatCatalog f c ns rc rm ms) f
      = ItemId.cls f :: ms.map (fun m => ItemId.method f m) := by
  simp only [getTestItemIdsForFile, flatCatalog, List.filterMap_cons]
  rw [filterMap_method_pairs f rm ms]
  simp

@[simp]
theorem methodDefn_type (f m : String) (rm : Option Nat) :
    (methodDefn f m rm).type = ItemType.method := rfl

@[simp]
theorem classDefn_type (f c : String) (ns : Option String) (rc : Option Nat) :
    (classDefn f c ns rc).type = ItemType.cls := rfl

@[simp]
theorem methodDefn_getMethodId (f m : String) (rm : Option Nat) :
    (methodDefn f m rm).getMethodId = ItemId.method f m := rfl

@[simp]
theorem methodDefn_methodLabel (f m : String) (rm : Option Nat) :
    (methodDefn f m rm).methodLabel = some m := rfl

@[simp]
theorem methodDefn_range (f m : String) (rm : Option Nat) :
    (methodDefn f m rm).range = rm := rfl

@[simp]
theorem classDefn_range (f c : String) (ns : Option String) (rc : Option Nat) :
    (classDefn f c ns rc).range = rc := rfl

@[simp]
theorem classDefn_namespaceName (f c : String) (ns : Option String) (rc : Option Nat) :
    (classDefn f c ns rc).namespaceName = ns := rfl

@[simp]
theorem classDefn_className (f c : String) (ns : Option String) (rc : Option Nat) :
    (classDefn f c ns rc).className = some c := rfl

@[simp]
theorem classDefn_classLabel (f c : String) (ns : Option String) (rc : Option Nat) :
    (classDefn f c ns rc).classLabel = some c := rfl

@[simp]
theorem classDefn_getClassId (f c : String) (ns : Option String) (rc : Option Nat) :
    (classDefn f c ns rc).getClassId = ItemId.cls f := rfl

theorem map_update_skip (upd : Item → Item) (id : ItemId) :
    ∀ (l : List Item), (∀ it ∈ l, (it.id == id) = false) →
      l.map (fun it => if it.id == id then upd it else it) = l
  | [], _ => rfl
  | it :: l, h => by
    rw [List.map_cons]
    rw [h it (List.mem_cons_self it l)]
    simp only [Bool.false_eq_true, if_false]
    rw [map_update_skip upd id l (fun x hx => h x (List.mem_cons_of_mem it hx))]

theorem methodItems_no_cls (f c' : String) (rm : Option Nat) (ms : List String) :
    ∀ it ∈ ms.map (fun m => methodItemOf f m rm), (it.id == ItemId.cls c') = false := by
  intro it hit
  rw [List.mem_map] at hit
  obtain ⟨m', _, rfl⟩ := hit
  simp

theorem methodItems_no_method (f f' : String) (rm : Option Nat) (ms : List String)
    (m : String) (hm : m ∉ ms) :
    ∀ it ∈ ms.map (fun m' => methodItemOf f m' rm), (it.id == ItemId.method f' m) = false := by
  intro it hit
  rw [List.mem_map] at hit
  obtain ⟨m', hm', rfl⟩ := hit
  simp only [methodItemOf_id, beq_eq_false_iff_ne, ne_eq, ItemId.method.injEq, not_and]
  intro hf hmm
  exact hm (hmm ▸ hm')

theorem flat_map_any_method_false (f c : String) (ns : Option String) (rc rm : Option Nat)
    (ms : List String) (m : String) (h : m ∉ ms) :
    (flatCatalog f c ns rc rm ms).itemMap.any (fun p => p.1 == ItemId.method f m) = false := by
  have hf := flat_find_def_method_none f c ns rc rm ms m h
  rw [List.find?_eq_none] at hf
  rw [List.any_eq_false]
  intro p hp
  have := hf p hp
  simpa using this

theorem mids_any_false (f : String) (ms : List String) (m : String) (h : m ∉ ms) :
    (ms.map (fun m' => ItemId.method f m')).any (fun x => x == ItemId.method f m) = false := by
  rw [List.any_eq_false]
  intro x hx
  rw [List.mem_map] at hx
  obtain ⟨m', hm', rfl⟩ := hx
  simp only [method_beq_method, Bool.not_eq_true, beq_eq_false_iff_ne, ne_eq]
  exact fun hmm => h (hmm ▸ hm')

theorem step_method_create (env : LoaderEnv) (f c : String) (ns : Option String)
    (rc rm : Option Nat) (done : List String) (m : String) (E : List ItemId)
    (hm : m ∉ done) :
    processDefinition flatSettings env none
        (flatCatalog f c ns rc rm done, some (ItemId.cls f), E) (methodDefn f m rm)
      = (flatCatalog f c ns rc rm (done ++ [m]), some (ItemId.cls f),
         E.erase (ItemId.method f m)) := by
  have hget := flat_getTestItem_method_none f c ns rc rm done m hm
  simp only [processDefinition, methodDefn_type]
  simp only [getMethodTestItem, methodDefn_getMethodId, hget]
  congr 1
  simp only [addTestItem, methodDefn_uri, updateItem, mapSet]
  rw [flat_map_any_method_false f c ns rc rm done m hm]
  simp only [Bool.false_eq_true, if_false]
  simp only [flatCatalog, Catalog.mk.injEq]
  refine ⟨?_, trivial, ?_⟩
  · simp only [List.map_cons, List.map_append]
    rw [map_update_skip _ _ _ (methodItems_no_cls f f rm done)]
    rw [map_update_skip _ _ _ (methodItems_no_method f f rm done m hm)]
    simp [classItemOf, methodItemOf, childAdd, mids_any_false f done m hm, List.map_append]
  · simp [List.map_append]

@[simp]
theorem flatSettings_useSuite : flatSettings.useTestSuiteDefinitions = false := rfl

@[simp]
theorem flatSettings_org : flatSettings.organizedByNamespace = false := rfl

theorem getNamespaceTestItem_flat (env : LoaderEnv) (s : Catalog)
    (d : TestItemDefinition) (p : Option ItemId) :
    getNamespaceTestItem flatSettings env s d p = (s, p) := by
  simp [getNamespaceTestItem, flatSettings]

theorem getTestItem_empty (id : ItemId) : getTestItem emptyCatalog id = none := rfl

theorem fold_methods_create (env : LoaderEnv) (f c : String) (ns : Option String)
    (rc rm : Option Nat) :
    ∀ (rest done : List String), (done ++ rest).Nodup →
      List.foldl (processDefinition flatSettings env none)
          (flatCatalog f c ns rc rm done, some (ItemId.cls f), ([] : List ItemId))
          (rest.map (fun m => methodDefn f m rm))
        = (flatCatalog f c ns rc rm (done ++ rest), some (ItemId.cls f), [])
  | [], done, _ => by simp
  | m :: rest, done, h => by
    rw [List.map_cons, List.foldl_cons]
    have hm : m ∉ done := by
      intro hmd
      exact (List.nodup_append.mp h).2.2 hmd (List.mem_cons_self m rest)
    rw [step_method_create env f c ns rc rm done m [] hm]
    rw [show ([] : List ItemId).erase (ItemId.method f m) = [] from rfl]
    have h' : ((done ++ [m]) ++ rest).Nodup := by
      rw [List.append_assoc, List.singleton_append]
      exact h
    rw [fold_methods_create env f c ns rc rm rest (done ++ [m]) h']
    rw [List.append_assoc, List.singleton_append]

theorem step_class_create (env : LoaderEnv) (f c : String) (ns : Option String)
    (rc rm : Option Nat) :
    processDefinition flatSettings env none
        (emptyCatalog, none, ([] : List ItemId)) (classDefn f c ns rc)
      = (flatCatalog f c ns rc rm [], some (ItemId.cls f), []) := by
  simp only [processDefinition, classDefn_type, getNamespaceTestItem_flat, ite_self]
  simp only [getClassTestItem, classDefn_getClassId, getTestItem_empty]
  simp only [addTestItem, updateItem, mapSet, emptyCatalog]
  simp [flatCatalog, classItemOf, childAdd, classDefn_uri, flatSettings, setLabelIcon]
  done

theorem reconcile_create (env : LoaderEnv) (f c : String) (ns : Option String)
    (rc rm : Option Nat) (ms : List String) (hnd : ms.Nodup) :
    parseTestDocument flatSettings env emptyCatalog f (fileDefns f c ns rc rm ms) none
      = flatCatalog f c ns rc rm ms := by
  have hfold := fold_methods_create env f c ns rc rm ms [] (by simpa using hnd)
  rw [show (([] : List String) ++ ms) = ms from rfl] at hfold
  simp only [parseTestDocument, flatSettings_useSuite, Bool.false_eq_true, if_false]
  rw [show getTestItemIdsForFile emptyCatalog f = [] from rfl]
  simp only [fileDefns, List.foldl_cons]
  rw [step_class_create env f c ns rc rm]
  rw [hfold]
  rfl

theorem map_pairs_update_skip (d : TestItemDefinition) (id : ItemId) :
    ∀ (l : List (ItemId × TestItemDefinition)), (∀ p ∈ l, (p.1 == id) = false) →
      l.map (fun p => if p.1 == id then (id, d) else p) = l
  | [], _ => rfl
  | p :: l, h => by
    rw [List.map_cons]
    rw [h p (List.mem_cons_self p l)]
    simp only [Bool.false_eq_true, if_false]
    rw [map_pairs_update_skip d id l (fun x hx => h x (List.mem_cons_of_mem p hx))]

theorem method_pairs_no_cls (f c' : String) (rm : Option Nat) (ms : List String) :
    ∀ p ∈ ms.map (fun m => (ItemId.method f m, methodDefn f m rm)),
      (p.1 == ItemId.cls c') = false := by
  intro p hp
  rw [List.mem_map] at hp
  obtain ⟨m', _, rfl⟩ := hp
  simp

theorem method_pairs_no_method (f f' : String) (rm : Option Nat) (ms : List String)
    (m : String) (hm : m ∉ ms) :
    ∀ p ∈ ms.map (fun m' => (ItemId.method f m', methodDefn f m' rm)),
      (p.1 == ItemId.method f' m) = false := by
  intro p hp
  rw [List.mem_map] at hp
  obtain ⟨m', hm', rfl⟩ := hp
  simp only [beq_eq_false_iff_ne, ne_eq, ItemId.method.injEq, not_and]
  intro hf hmm
  exact hm (hmm ▸ hm')

theorem step_class_update (env : LoaderEnv) (f c : String) (ns : Option String)
    (rc rm : Option Nat) (all : List String) (E : List ItemId) :
    processDefinition flatSettings env none
        (flatCatalog f c ns rc rm all, none, E) (classDefn f c ns rc)
      = (flatCatalog f c ns rc rm all, some (ItemId.cls f), E.erase (ItemId.cls f)) := by
  simp only [processDefinition, classDefn_type, getNamespaceTestItem_flat, ite_self]
  simp only [getClassTestItem, classDefn_getClassId,
    flat_getTestItem_cls f c ns rc rm all, flat_getTestDefinition_cls f c ns rc rm all]
  simp only [classDefn_namespaceName, classDefn_className, classDefn_classLabel,
    classDefn_range, classDefn_type, flatSettings_org, bne_self_eq_false, Bool.or_false,
    Bool.false_or, Bool.not_false, Bool.false_and, Bool.true_and, Option.isNone_none,
    Bool.and_true, if_true, Bool.false_eq_true, if_false]
  congr 1
  simp only [updateItem, mapSet, flatCatalog, Catalog.mk.injEq, List.map_cons]
  refine ⟨?_, trivial, ?_⟩
  · rw [map_update_skip _ _ _ (methodItems_no_cls f f rm all)]
    simp [classItemOf, setLabelIcon]
  · rw [show (((ItemId.cls f, classDefn f c ns rc)
        :: all.map (fun m => (ItemId.method f m, methodDefn f m rm))).any
          (fun p => p.1 == ItemId.cls f)) = true by simp [List.any_cons]]
    simp only [if_true, List.map_cons, beq_self_eq_true]
    rw [map_pairs_update_skip _ _ _ (method_pairs_no_cls f f rm all)]
  done

theorem map_update_id (upd : Item → Item) (id : ItemId) :
    ∀ (l : List Item), (∀ it ∈ l, (it.id == id) = true → upd it = it) →
      l.map (fun it => if it.id == id then upd it else it) = l
  | [], _ => rfl
  | it :: l, h => by
    rw [List.map_cons]
    rw [map_update_id upd id l (fun x hx => h x (List.mem_cons_of_mem it hx))]
    by_cases hc : (it.id == id) = true
    · rw [hc, if_pos rfl, h it (List.mem_cons_self it l) hc]
    · rw [if_neg (by simpa using hc)]

theorem map_pairs_update_id (d : TestItemDefinition) (id : ItemId) :
    ∀ (l : List (ItemId × TestItemDefinition)),
      (∀ p ∈ l, (p.1 == id) = true → p = (id, d)) →
      l.map (fun p => if p.1 == id then (id, d) else p) = l
  | [], _ => rfl
  | p :: l, h => by
    rw [List.map_cons]
    rw [map_pairs_update_id d id l (fun x hx => h x (List.mem_cons_of_mem p hx))]
    by_cases hc : (p.1 == id) = true
    · rw [hc, if_pos rfl, ← h p (List.mem_cons_self p l) hc]
    · rw [if_neg (by simpa using hc)]

theorem flat_map_any_method_true (f c : String) (ns : Option String) (rc rm : Option Nat)
    (all : List String) (m : String) (hmem : m ∈ all) :
    (flatCatalog f c ns rc rm all).itemMap.any (fun p => p.1 == ItemId.method f m) = true := by
  rw [List.any_eq_true]
  refine ⟨(ItemId.method f m, methodDefn f m rm), ?_, by simp⟩
  simp only [flatCatalog, List.mem_cons]
  right
  rw [List.mem_map]
  exact ⟨m, hmem, rfl⟩

theorem step_method_update (env : LoaderEnv) (f c : String) (ns : Option String)
    (rc rm : Option Nat) (all : List String) (m : String) (E : List ItemId)
    (hmem : m ∈ all) :
    processDefinition flatSettings env none
        (flatCatalog f c ns rc rm all, some (ItemId.cls f), E) (methodDefn f m rm)
      = (flatCatalog f c ns rc rm all, some (ItemId.cls f),
         E.erase (ItemId.method f m)) := by
  simp only [processDefinition, methodDefn_type]
  simp only [getMethodTestItem, methodDefn_getMethodId,
    flat_getTestItem_method_mem f c ns rc rm all m hmem]
  simp only [methodItemOf_parent, bne_self_eq_false, Bool.false_eq_true, if_false]
  congr 1
  simp only [updateItem, mapSet]
  have harena : (flatCatalog f c ns rc rm all).arena.map
      (fun it => if it.id == ItemId.method f m then
        { id := it.id, uri := it.uri,
          label := setLabelIcon (methodDefn f m rm).type ((methodDefn f m rm).methodLabel.getD ""),
          range := (methodDefn f m rm).range, canResolveChildren := it.canResolveChildren,
          parent := it.parent, children := it.children }
        else it)
      = (flatCatalog f c ns rc rm all).arena := by
    refine map_update_id _ _ _ ?_
    intro it hit hid
    simp only [flatCatalog, List.mem_cons] at hit
    rcases hit with rfl | hit
    · simp at hid
    · rw [List.mem_map] at hit
      obtain ⟨m', hm', rfl⟩ := hit
      have : m' = m := by simpa [method_beq_method] using hid
      subst this
      simp [methodItemOf, setLabelIcon]
  rw [harena]
  rw [show ((flatCatalog f c ns rc rm all).itemMap.any
      (fun p => p.1 == ItemId.method f m)) = true
    from flat_map_any_method_true f c ns rc rm all m hmem]
  simp only [if_true]
  have hmap : (flatCatalog f c ns rc rm all).itemMap.map
      (fun p => if p.1 == ItemId.method f m then (ItemId.method f m, methodDefn f m rm) else p)
      = (flatCatalog f c ns rc rm all).itemMap := by
    refine map_pairs_update_id _ _ _ ?_
    intro p hp hid
    simp only [flatCatalog, List.mem_cons] at hp
    rcases hp with rfl | hp
    · simp at hid
    · rw [List.mem_map] at hp
      obtain ⟨m', hm', rfl⟩ := hp
      have : m' = m := by simpa [method_beq_method] using hid
      subst this
      rfl
  rw [hmap]
  done

theorem fold_methods_update (env : LoaderEnv) (f c : String) (ns : Option String)
    (rc rm : Option Nat) (all : List String) :
    ∀ (rest : List String) (K : List ItemId), (∀ x ∈ rest, x ∈ all) →
      List.foldl (processDefinition flatSettings env none)
          (flatCatalog f c ns rc rm all, some (ItemId.cls f),
           rest.map (fun m => ItemId.method f m) ++ K)
          (rest.map (fun m => methodDefn f m rm))
        = (flatCatalog f c ns rc rm all, some (ItemId.cls f), K)
  | [], K, _ => by simp
  | m :: rest, K, hsub => by
    rw [List.map_cons, List.map_cons, List.foldl_cons]
    rw [List.cons_append]
    rw [step_method_update env f c ns rc rm all m _ (hsub m (List.mem_cons_self m rest))]
    rw [List.erase_cons_head]
    exact fold_methods_update env f c ns rc rm all rest K
      (fun x hx => hsub x (List.mem_cons_of_mem m hx))

theorem reconcile_update (env : LoaderEnv) (f c : String) (ns : Option String)
    (rc rm : Option Nat) (ms : List String) :
    parseTestDocument flatSettings env (flatCatalog f c ns rc rm ms) f
        (fileDefns f c ns rc rm ms) none
      = flatCatalog f c ns rc rm ms := by
  simp only [parseTestDocument, flatSettings_useSuite, Bool.false_eq_true, if_false]
  rw [flat_ids_for_file f c ns rc rm ms]
  simp only [fileDefns, List.foldl_cons]
  rw [step_class_update env f c ns rc rm ms]
  rw [List.erase_cons_head]
  rw [show ms.map (fun m => ItemId.method f m)
      = ms.map (fun m => ItemId.method f m) ++ [] from (List.append_nil _).symm]
  rw [fold_methods_update env f c ns rc rm ms ms [] (fun x hx => hx)]
  rfl

theorem mapDelete_flat (f c : String) (ns : Option String) (rc rm : Option Nat)
    (ms : List String) (m : String) (hm : m ∉ ms) :
    mapDelete (flatCatalog f c ns rc rm (ms ++ [m])).itemMap (ItemId.method f m)
      = (flatCatalog f c ns rc rm ms).itemMap := by
  simp only [mapDelete, flatCatalog, List.map_append, List.map_cons, List.map_nil,
    List.filter_cons, List.filter_append]
  rw [show ((ItemId.cls f, classDefn f c ns rc).1 != ItemId.method f m) = true by simp]
  simp only [if_true, bne_self_eq_false, Bool.false_eq_true, if_false, List.filter_nil,
    List.append_nil]
  congr 1
  rw [List.filter_eq_self]
  intro p hp
  rw [List.mem_map] at hp
  obtain ⟨m', hm', rfl⟩ := hp
  simp only [bne_iff_ne, ne_eq, ItemId.method.injEq, not_and]
  intro hf hmm
  exact hm (hmm ▸ hm')

theorem arenaFilter_flat (f c : String) (ns : Option String) (rc rm : Option Nat)
    (ms : List String) (m : String) (hm : m ∉ ms) :
    List.filter (fun it => it.id != ItemId.method f m)
        (flatCatalog f c ns rc rm (ms ++ [m])).arena
      = classItemOf f c ns rc (ms ++ [m]) :: ms.map (fun m' => methodItemOf f m' rm) := by
  simp only [flatCatalog, List.map_append, List.map_cons, List.map_nil, List.filter_cons,
    List.filter_append]
  rw [show ((classItemOf f c ns rc (ms ++ [m])).id != ItemId.method f m) = true by simp]
  simp only [if_true, methodItemOf_id, bne_self_eq_false, Bool.false_eq_true, if_false,
    List.filter_nil, List.append_nil]
  congr 1
  rw [List.filter_eq_self]
  intro it hit
  rw [List.mem_map] at hit
  obtain ⟨m', hm', rfl⟩ := hit
  simp only [methodItemOf_id, bne_iff_ne, ne_eq, ItemId.method.injEq, not_and]
  intro hf hmm
  exact hm (hmm ▸ hm')

theorem remove_last_method (f c : String) (ns : Option String) (rc rm : Option Nat)
    (ms : List String) (m : String) (hm : m ∉ ms) (hne : ms ≠ []) :
    removeTestItemFull (flatCatalog f c ns rc rm (ms ++ [m])) (ItemId.method f m)
      = flatCatalog f c ns rc rm ms := by
  have hlen : (flatCatalog f c ns rc rm (ms ++ [m])).arena.length + 1
      = Nat.succ (ms.length + 2) := by
    simp [flatCatalog]
  rw [removeTestItemFull, hlen]
  rw [removeTestItem]
  rw [mapDelete_flat f c ns rc rm ms m hm]
  rw [show findItem
        { arena := (flatCatalog f c ns rc rm (ms ++ [m])).arena,
          roots := (flatCatalog f c ns rc rm (ms ++ [m])).roots,
          itemMap := (flatCatalog f c ns rc rm ms).itemMap }
        (ItemId.method f m)
      = findItem (flatCatalog f c ns rc rm (ms ++ [m])) (ItemId.method f m) from rfl]
  rw [flat_findItem_method_mem f c ns rc rm (ms ++ [m]) m
    (List.mem_append_right ms (List.mem_cons_self m []))]
  simp only [methodItemOf_parent]
  simp only [arenaDelete]
  rw [arenaFilter_flat f c ns rc rm ms m hm]
  simp only [findItem, List.find?, classItemOf_id, beq_self_eq_true]
  have hnotin : ItemId.method f m ∉ ms.map (fun m' => ItemId.method f m') := by
    intro hmem
    rw [List.mem_map] at hmem
    obtain ⟨m', hm', he⟩ := hmem
    exact hm ((by simpa using he : m' = m) ▸ hm')
  have hch : (classItemOf f c ns rc (ms ++ [m])).children.erase (ItemId.method f m)
      = ms.map (fun m' => ItemId.method f m') := by
    simp only [classItemOf_children, List.map_append, List.map_cons, List.map_nil]
    rw [List.erase_append_right _ hnotin]
    simp
  rw [hch]
  have hemp : ((ms.map (fun m' => ItemId.method f m')).isEmpty) = false := by
    cases ms with
    | nil => exact absurd rfl hne
    | cons a l => rfl
  rw [hemp]
  simp only [Bool.false_eq_true, if_false]
  simp only [updateItem, List.map_cons]
  rw [map_update_skip _ _ _ (methodItems_no_cls f f rm ms)]
  rw [show ((classItemOf f c ns rc (ms ++ [m])).id == ItemId.cls f) = true by simp]
  simp only [if_true]
  simp [flatCatalog, classItemOf]
  done

theorem reconcile_drop_method (env : LoaderEnv) (f c : String) (ns : Option String)
    (rc rm : Option Nat) (ms : List String) (m : String) (hm : m ∉ ms) (hne : ms ≠ []) :
    parseTestDocument flatSettings env (flatCatalog f c ns rc rm (ms ++ [m])) f
        (fileDefns f c ns rc rm ms) none
      = flatCatalog f c ns rc rm ms := by
  simp only [parseTestDocument, flatSettings_useSuite, Bool.false_eq_true, if_false]
  rw [flat_ids_for_file f c ns rc rm (ms ++ [m])]
  simp only [fileDefns, List.foldl_cons]
  rw [step_class_update env f c ns rc rm (ms ++ [m])]
  rw [List.erase_cons_head]
  rw [List.map_append]
  rw [fold_methods_update env f c ns rc rm (ms ++ [m]) ms
    ([m].map (fun m' => ItemId.method f m'))
    (fun x hx => List.mem_append_left [m] hx)]
  simp only [List.map_cons, List.map_nil, List.foldl_cons, List.foldl_nil]
  rw [flat_getTestItem_method_mem f c ns rc rm (ms ++ [m]) m
    (List.mem_append_right ms (List.mem_cons_self m []))]
  rw [remove_last_method f c ns rc rm ms m hm hne]

/-- C3 counterexample: starting from a catalog holding a class and its one
method, reconciling twice with the same Definition list (the class alone)
is not idempotent — the first pass orphan-prunes the method, the cascade
deletes the now-childless class node, and the second pass recreates it, so
the catalogs after one and after two passes differ. -/
theorem reconcile_not_idempotent :
    parseTestDocument flatSettings emptyEnv
        (parseTestDocument flatSettings emptyEnv
          (flatCatalog "t/AT.php" "A" none none none ["one"]) "t/AT.php"
          (fileDefns "t/AT.php" "A" none none none []) none)
        "t/AT.php" (fileDefns "t/AT.php" "A" none none none []) none
      ≠ parseTestDocument flatSettings emptyEnv
          (flatCatalog "t/AT.php" "A" none none none ["one"]) "t/AT.php"
          (fileDefns "t/AT.php" "A" none none none []) none := by
  decide

/-- C3 (amended): reconciliation is idempotent when the catalog holds no
stale nodes for the file — reconciling a fresh file twice with the same
single-class Definition list (class first, then its pairwise-distinct
methods, under file-based organization) yields exactly the catalog of the
single pass, with no node added, removed, re-parented or duplicated.  With
stale method nodes present, idempotence can fail: a list leaving the class
without methods lets the pruning cascade delete the class node that the
second pass then recreates. -/
theorem reconcile_idempotent_from_empty (env : LoaderEnv) (f c : String)
    (ns : Option String) (rc rm : Option Nat) (ms : List String) (hnd : ms.Nodup) :
    parseTestDocument flatSettings env
        (parseTestDocument flatSettings env emptyCatalog f
          (fileDefns f c ns rc rm ms) none)
        f (fileDefns f c ns rc rm ms) none
      = parseTestDocument flatSettings env emptyCatalog f
          (fileDefns f c ns rc rm ms) none := by
  rw [reconcile_create env f c ns rc rm ms hnd]
  exact reconcile_update env f c ns rc rm ms

/-- C3 witness: the amended idempotence at a concrete two-method file. -/
theorem reconcile_idempotent_from_empty_witness :
    parseTestDocument flatSettings emptyEnv
        (parseTestDocument flatSettings emptyEnv emptyCatalog "t/AT.php"
          (fileDefns "t/AT.php" "A" none none none ["one", "two"]) none)
        "t/AT.php" (fileDefns "t/AT.php" "A" none none none ["one", "two"]) none
      = parseTestDocument flatSettings emptyEnv emptyCatalog "t/AT.php"
          (fileDefns "t/AT.php" "A" none none none ["one", "two"]) none :=
  reconcile_idempotent_from_empty emptyEnv "t/AT.php" "A" none none none
    ["one", "two"] (by decide)

/-- C2 counterexample: the catalog holds class `A` with its single method
`one`; reconciling with a Definition list that still contains the class
Definition but no longer the method deletes the method *and*, the class
being left childless, cascades to delete the class node as well — the class
node does not survive, falsifying the claim in the last-remaining-method
case it explicitly includes. -/
theorem lastMethod_removal_cascades_to_class :
    parseTestDocument flatSettings emptyEnv
        (flatCatalog "t/AT.php" "A" none none none ["one"]) "t/AT.php"
        (fileDefns "t/AT.php" "A" none none none []) none
      = emptyCatalog ∧
    getTestItem
        (parseTestDocument flatSettings emptyEnv
          (flatCatalog "t/AT.php" "A" none none none ["one"]) "t/AT.php"
          (fileDefns "t/AT.php" "A" none none none []) none)
        (ItemId.cls "t/AT.php")
      = none := by
  exact ⟨by decide, by decide⟩

/-- C2 (amended): reconciling a file a second time with one method
Definition removed — while the class Definition and at least one other
method Definition remain — deletes exactly that method's node: the resulting
catalog is precisely the one-pass catalog of the smaller list, the class
node survives attached at the controller root with the remaining methods as
children, and the removed method's node is gone.  (When the removed method
was the class's last remaining method, the cascade in `removeTestItem`
deletes the class node too.) -/
theorem reconcile_method_removed_class_survives (env : LoaderEnv) (f c : String)
    (ns : Option String) (rc rm : Option Nat) (ms : List String) (m : String)
    (hnd : (ms ++ [m]).Nodup) (hne : ms ≠ []) :
    parseTestDocument flatSettings env
        (parseTestDocument flatSettings env emptyCatalog f
          (fileDefns f c ns rc rm (ms ++ [m])) none)
        f (fileDefns f c ns rc rm ms) none
      = flatCatalog f c ns rc rm ms ∧
    getTestItem (flatCatalog f c ns rc rm ms) (ItemId.cls f)
      = some (classItemOf f c ns rc ms) ∧
    ItemId.cls f ∈ (flatCatalog f c ns rc rm ms).roots ∧
    getTestItem (flatCatalog f c ns rc rm ms) (ItemId.method f m) = none ∧
    ∀ m' ∈ ms, getTestItem (flatCatalog f c ns rc rm ms) (ItemId.method f m')
      = some (methodItemOf f m' rm) := by
  have hm : m ∉ ms := fun hmem =>
    (List.nodup_append.mp hnd).2.2 hmem (List.mem_cons_self m [])
  refine ⟨?_, flat_getTestItem_cls f c ns rc rm ms, by simp [flatCatalog, childAdd],
    flat_getTestItem_method_none f c ns rc rm ms m hm,
    fun m' hm' => flat_getTestItem_method_mem f c ns rc rm ms m' hm'⟩
  rw [reconcile_create env f c ns rc rm (ms ++ [m]) hnd]
  exact reconcile_drop_method env f c ns rc rm ms m hm hne

/-- C2 witness: the amended theorem at a concrete file with methods `one`
and `two`, re-reconciled without `two`. -/
theorem reconcile_method_removed_class_survives_witness :
    parseTestDocument flatSettings emptyEnv
        (parseTestDocument flatSettings emptyEnv emptyCatalog "t/AT.php"
          (fileDefns "t/AT.php" "A" none none none (["one"] ++ ["two"])) none)
        "t/AT.php" (fileDefns "t/AT.php" "A" none none none ["one"]) none
      = flatCatalog "t/AT.php" "A" none none none ["one"] ∧
    getTestItem (flatCatalog "t/AT.php" "A" none none none ["one"])
        (ItemId.method "t/AT.php" "two") = none := by
  have h := reconcile_method_removed_class_survives emptyEnv "t/AT.php" "A" none none none
    ["one"] "two" (by decide) (by decide)
  exact ⟨h.1, h.2.2.2.1⟩

end LoaderScenario
